import Mathlib

/-!
Shallow embedding of the list-structure conversion engine of the repository:
the upcast and downcast converters for document lists, the bogus-paragraph
policy, and the differ-driven reconversion scheduler, together with proofs of
the specified properties.

The model side is a flat sequence of blocks, each carrying an attribute list
with the recognized list attributes, exactly as in the source.  Helpers that
live outside the provided sources but are fixed by the specification (the
list walker, list-head discovery, item-block grouping) are modelled from the
specification and marked as such in their doc comments.
-/

/-- Attribute values carried by model blocks: strings (item identifiers and
list types), natural numbers (indents) and booleans (flags). -/
inductive AttrValue where
  | str (s : String)
  | nat (n : Nat)
  | bool (b : Bool)
deriving DecidableEq, Repr

/-- A content-bearing block of the flat model: an element name together with
its ordered attribute list. -/
structure Block where
  name : String
  attrs : List (String × AttrValue)
deriving DecidableEq, Repr

instance : Inhabited Block := ⟨⟨"", []⟩⟩

/-- Reads an attribute value, mirroring getAttribute on a model node. -/
def Block.getAttr (b : Block) (k : String) : Option AttrValue :=
  b.attrs.lookup k

/-- Mirrors hasAttribute on a model node. -/
def Block.hasAttr (b : Block) (k : String) : Bool :=
  (b.getAttr k).isSome

/-- The attribute keys of a block, mirroring getAttributeKeys. -/
def attrKeys (b : Block) : List String :=
  b.attrs.map Prod.fst

/-- Modelled from the spec: a block belongs to a list when it carries the
listItemId attribute; a block with no listItemId is a list boundary. -/
def isListItemBlock (b : Block) : Bool :=
  b.hasAttr "listItemId"

/-- Reads the listIndent attribute as a natural number, zero when absent
(list blocks always carry a numeric listIndent). -/
def listIndentOf (b : Block) : Nat :=
  match b.getAttr "listIndent" with
  | some (.nat n) => n
  | _ => 0

/-- The node of the flat document at a given index; out-of-range indices
behave like the null node (no attributes, not a list block). -/
def getBlock (doc : List Block) (i : Nat) : Block :=
  doc.getD i default

/-- Modelled from the spec: counts the consecutive blocks directly before
index i that carry the given listItemId value (blocks sharing a listItemId
are contiguous and form one logical item). -/
def sameIdBackLen (doc : List Block) : Nat → AttrValue → Nat
  | 0, _ => 0
  | i + 1, v =>
    if (getBlock doc i).getAttr "listItemId" = some v then
      sameIdBackLen doc i v + 1
    else 0

/-- The structural helper of sameIdFwdLen, recursive on the remaining
document length. -/
def sameIdFwdLenAux (doc : List Block) (v : AttrValue) : Nat → Nat → Nat
  | 0, _ => 0
  | fuel + 1, i =>
    if i < doc.length then
      if (getBlock doc i).getAttr "listItemId" = some v then
        sameIdFwdLenAux doc v fuel (i + 1) + 1
      else 0
    else 0

/-- Modelled from the spec: counts the consecutive blocks from index i on
that carry the given listItemId value. -/
def sameIdFwdLen (doc : List Block) (i : Nat) (v : AttrValue) : Nat :=
  sameIdFwdLenAux doc v (doc.length - i) i

/-- Modelled from the spec: all blocks of the logical item of the block at
index i, as indices.  The item is the maximal contiguous run of blocks
sharing the listItemId of the block; a block without listItemId is its own
single-block group. -/
def getAllListItemBlocks (doc : List Block) (i : Nat) : List Nat :=
  match (getBlock doc i).getAttr "listItemId" with
  | none => [i]
  | some v =>
    let back := sameIdBackLen doc i v
    let fwd := sameIdFwdLen doc i v
    (List.range (back + fwd)).map (fun k => (i - back) + k)

/-- Modelled from the spec: the blocks of the logical item of the block at
index i in the forward direction (the block itself included). -/
def getListItemBlocksFwd (doc : List Block) (i : Nat) : List Nat :=
  match (getBlock doc i).getAttr "listItemId" with
  | none => [i]
  | some v => (List.range (sameIdFwdLen doc i v)).map (fun k => i + k)

/-- The prefix test on strings, rendered structurally on the underlying
character lists (the semantics of startsWith). -/
def strStartsWith (s p : String) : Bool :=
  p.data.isPrefixOf s.data

/-- Embedding of shouldUseBogusParagraph: a block is rendered as a bogus
paragraph when it is a list block, every attribute key apart from the
selection bookkeeping ones belongs to the recognized list-attribute set, and
its logical item has fewer than two blocks. -/
def shouldUseBogusParagraph (item : Block) (attributeNames : List String)
    (blocks : List Nat) : Bool :=
  if ¬ isListItemBlock item then false
  else if (attrKeys item).all
      (fun k => strStartsWith k "selection:" || attributeNames.contains k)
      then
    decide (blocks.length < 2)
  else false

/-- The shouldUseBogusParagraph call with the default blocks argument, the
logical-item blocks of the node. -/
def shouldUseBogusParagraphAt (doc : List Block) (i : Nat)
    (attributeNames : List String) : Bool :=
  shouldUseBogusParagraph (getBlock doc i) attributeNames
    (getAllListItemBlocks doc i)

/-- The element produced by the bogus-paragraph creator: a non-semantic span
wrapper for the editing pipeline, or a real paragraph marked for transparent
rendering for the data pipeline. -/
inductive BogusElement where
  | span (cls : String)
  | pTransparent
deriving DecidableEq, Repr

/-- Embedding of bogusParagraphCreator: produces no element unless a bogus
paragraph should be used; then a span with the bogus-paragraph class in the
editing pipeline and a paragraph marked with transparent rendering in the
data pipeline. -/
def bogusParagraphCreator (attributeNames : List String) (dataPipeline : Bool)
    (doc : List Block) (i : Nat) : Option BogusElement :=
  if ¬ shouldUseBogusParagraphAt doc i attributeNames then none
  else if ¬ dataPipeline then some (.span "ck-list-bogus-paragraph")
  else some .pTransparent


/-- A node of the view tree: a text node or an element with a name,
attributes and children. -/
inductive ViewNode where
  | text (s : String)
  | element (name : String) (vattrs : List (String × AttrValue))
      (children : List ViewNode)

/-- Modelled from the spec: a list-item view element is an li element. -/
def isListItemViewName (n : String) : Bool :=
  n == "li"

/-- Modelled from the spec: a list view element is a ul or an ol element. -/
def isListViewName (n : String) : Bool :=
  n == "ul" || n == "ol"

/-- Modelled from the spec: whether a view node is a list-item view. -/
def ViewNode.isLi : ViewNode → Bool
  | .element n _ _ => isListItemViewName n
  | _ => false

/-- Modelled from the spec: whether a view node is a list view. -/
def ViewNode.isList : ViewNode → Bool
  | .element n _ _ => isListViewName n
  | _ => false

/-- The children of a view node; text nodes have none. -/
def ViewNode.childrenOf : ViewNode → List ViewNode
  | .element _ _ cs => cs
  | _ => []

/-- Embedding of listUpcastCleanList: when the element name is still
consumable, every direct child that is neither a list-item view nor a list
view is removed from the list view element; otherwise nothing happens. -/
def listUpcastCleanList (consumableNameTest : Bool) (viewItem : ViewNode) :
    ViewNode :=
  if ¬ consumableNameTest then viewItem
  else
    match viewItem with
    | .element n a children =>
        .element n a (children.filter (fun c => c.isLi || c.isList))
    | other => other

/-- Replaces the value under a key of an attribute list in place, appending
the pair at the end when the key is absent, mirroring setAttribute on a
model node. -/
def setAttr : List (String × AttrValue) → String → AttrValue →
    List (String × AttrValue)
  | [], k, v => [(k, v)]
  | kv :: rest, k, v =>
    if kv.1 == k then (k, v) :: rest else kv :: setAttr rest k v

/-- The attribute assignment performed by the list item upcast converter:
listItemId, listIndent and listType are set in this order. -/
def setListAttrs (id : AttrValue) (indent : Nat) (listType : String)
    (b : Block) : Block :=
  { b with
    attrs := setAttr (setAttr (setAttr b.attrs "listItemId" id)
      "listIndent" (.nat indent)) "listType" (.str listType) }

/-- The result of the list item upcast converter: the updated model range
and whether the first item was requested to be kept as an explicit empty
element. -/
structure UpcastResult where
  range : List Block
  keepEmptyFirst : Bool
deriving DecidableEq

/-- The list type chosen by the upcast converter: numbered under an ol
parent and bulleted otherwise, unless the first converted item already
carries a non-empty string listType, which is preserved. -/
def upcastListType (parentName : String) (items : List Block) : String :=
  let defaultType := if parentName == "ol" then "numbered" else "bulleted"
  match (items.headD default).getAttr "listType" with
  | some (.str t) => if t == "" then defaultType else t
  | _ => defaultType

/-- The per-block update of the upcast converter: the list attributes are
assigned only to items accepted by the schema that do not already carry a
listItemId. -/
def upcastUpdate (allows : String → Bool) (freshId : AttrValue) (indent : Nat)
    (ty : String) (b : Block) : Block :=
  if allows b.name = true ∧ b.hasAttr "listItemId" = false then
    setListAttrs freshId indent ty b
  else b

/-- Embedding of listItemUpcastConverter.  The converter runs after the
children of the list-item view were converted to the blocks of the given
model range.  The schema check for the listItemId attribute is the allows
predicate over element names; the fresh globally unique identifier produced
by ListItemUid (external) is the freshId argument; the indent is the nesting
depth of the source markup.  Returns none when no item of the range accepts
the listItemId attribute.  The first item is kept as an explicit empty
element when more than one item resulted and the second item carries a
listItemId different from the freshly assigned one at comparison time,
which happens after the attribute assignment. -/
def listItemUpcastConvert (allows : String → Bool) (parentName : String)
    (indent : Nat) (freshId : AttrValue) (range : List Block) :
    Option UpcastResult :=
  let items := range.filter (fun b => allows b.name)
  if items.isEmpty then none
  else
    let range2 := range.map
      (upcastUpdate allows freshId indent (upcastListType parentName items))
    let items2 := range2.filter (fun b => allows b.name)
    some
      { range := range2
        keepEmptyFirst :=
          decide (1 < items2.length) &&
            decide (((items2.getD 1 default).getAttr "listItemId")
              ≠ some freshId) }


/-- Modelled from the spec: the nearest preceding sibling block with an
indent strictly lower than the reference (the list walker with the
lowerIndent filter).  The walk goes backward over the reversed prefix of the
document, stops at list boundaries, and returns the found block together
with the remaining reversed prefix before it, or none when no qualifying
block exists. -/
def findLowerIndentSibling : List Block → Nat → Option (Block × List Block)
  | [], _ => none
  | b :: rest, ref =>
    if ¬ isListItemBlock b then none
    else if listIndentOf b < ref then some (b, rest)
    else findLowerIndentSibling rest ref

/-- A pluggable downcast attribute strategy: its scope (list, item or
itemMarker), the attribute name it owns, and for marker strategies the
marker element it contributes, none when it contributes nothing. -/
structure DowncastStrategy where
  scope : String
  attributeName : String
  markerElement : Option String := none
deriving DecidableEq

/-- One level of the wrapper chain produced for a block by the downcast: the
item wrapper carrying the item identifier and the item-scoped strategy
attributes, and the list wrapper carrying its element name and the
list-scoped strategy attributes. -/
structure WrapperPair where
  itemId : Option AttrValue
  itemAttrs : List (String × AttrValue)
  listName : String
  listAttrs : List (String × AttrValue)
deriving DecidableEq

/-- Modelled from the spec: the view element name for a list type, an ol
element for numbered lists and a ul element otherwise (createListElement). -/
def listViewElementName (listType : Option AttrValue) : String :=
  if listType = some (.str "numbered") then "ol" else "ul"

/-- The strategy attributes recorded at one level of the wrapper chain: each
registered list-scoped or item-scoped strategy whose attribute is set on the
governing block applies its value to the wrapper of its scope; the external
setAttributeOnDowncast hook is modelled as recording the attribute value on
the wrapper. -/
def strategyAttrs (strategies : List DowncastStrategy) (scope : String)
    (cur : Block) : List (String × AttrValue) :=
  strategies.filterMap (fun s =>
    if (s.scope == "list" || s.scope == "item") && s.scope == scope
        && cur.hasAttr s.attributeName then
      (cur.getAttr s.attributeName).map (fun v => (s.attributeName, v))
    else none)

/-- The wrapper pair created for one indent level from its governing block:
an item wrapper with the listItemId of the block (createListItemElement) and
a list wrapper named from its listType (createListElement), each carrying
the strategy attributes of its scope. -/
def wrapPairFor (strategies : List DowncastStrategy) (cur : Block) :
    WrapperPair :=
  { itemId := cur.getAttr "listItemId"
    itemAttrs := strategyAttrs strategies "item" cur
    listName := listViewElementName (cur.getAttr "listType")
    listAttrs := strategyAttrs strategies "list" cur }

/-- The wrapping loop of wrapListItemBlock: one wrapper pair per level from
the given level down to zero, the governing block moving at each step to the
nearest preceding sibling block with lower indent; the loop stops early when
no such block exists. -/
def wrapChainGo (strategies : List DowncastStrategy) :
    Nat → Block → List Block → List WrapperPair
  | 0, cur, _ => [wrapPairFor strategies cur]
  | indent + 1, cur, rev =>
    wrapPairFor strategies cur ::
      match findLowerIndentSibling rev (listIndentOf cur) with
      | none => []
      | some (b, rest) => wrapChainGo strategies indent b rest

/-- Embedding of wrapListItemBlock: a block without listIndent is not
wrapped at all; otherwise the block (the view range that already includes
any inserted marker) is wrapped in one item-wrapper and list-wrapper pair
per indent level from its listIndent down to zero, stopping early without
error when some level has no preceding block with lower indent. -/
def wrapListItemBlock (strategies : List DowncastStrategy)
    (revPrefix : List Block) (listItem : Block) : List WrapperPair :=
  if (listItem.getAttr "listIndent").isNone then []
  else wrapChainGo strategies (listIndentOf listItem) listItem revPrefix

/-- Modelled from the spec: a block is the first block of its logical item
when the directly preceding block does not carry the same listItemId. -/
def isFirstBlockOfListItem (revPrefix : List Block) (b : Block) : Bool :=
  match revPrefix with
  | [] => true
  | p :: _ =>
    match b.getAttr "listItemId" with
    | none => true
    | some v => if p.getAttr "listItemId" = some v then false else true

/-- The custom marker elements contributed by the itemMarker strategies for
the first block of an item (insertCustomMarkerElements); blocks that are not
the first block of their item receive no markers. -/
def customMarkers (strategies : List DowncastStrategy)
    (revPrefix : List Block) (listItem : Block) : List String :=
  if ¬ isFirstBlockOfListItem revPrefix listItem then []
  else (strategies.filter (fun s => s.scope == "itemMarker")).filterMap
    (fun s => s.markerElement)

/-- Replaces the flag under a key of a flag list in place, appending the
pair when the key is absent. -/
def setFlag : List (String × Bool) → String → Bool → List (String × Bool)
  | [], k, v => [(k, v)]
  | kv :: rest, k, v =>
    if kv.1 == k then (k, v) :: rest else kv :: setFlag rest k v

/-- The consumable state of the conversion events of one model item: each
event name maps to whether it is still consumable; an event never added is
absent, so a test on it answers neither true nor false, mirroring null. -/
structure ModelConsumable where
  vals : List (String × Bool)
deriving DecidableEq

/-- Mirrors consumable.test for one event of the item. -/
def ModelConsumable.test (c : ModelConsumable) (ev : String) : Option Bool :=
  c.vals.lookup ev

/-- Mirrors consumable.consume for one event of the item. -/
def ModelConsumable.consume (c : ModelConsumable) (ev : String) :
    ModelConsumable :=
  ⟨setFlag c.vals ev false⟩

/-- The conversion events collected by the attributes consumer: one
attribute event per recognized attribute set on the node. -/
def consumerEvents (attributeNames : List String) (node : Block) :
    List String :=
  (attributeNames.filter (fun n => node.hasAttr n)).map
    (fun n => "attribute:" ++ n)

/-- Embedding of createAttributesConsumer: when every collected event still
tests as not false, all of them are consumed and true is returned; otherwise
nothing is consumed and false is returned. -/
def attributesConsumer (attributeNames : List String) (node : Block)
    (c : ModelConsumable) : Bool × ModelConsumable :=
  let events := consumerEvents attributeNames node
  if events.all (fun e => ¬ (c.test e = some false)) = true then
    (true, events.foldl (fun acc e => acc.consume e) c)
  else (false, c)

/-- The view state of one block for the downcast converter: the custom
marker elements before the block and the wrapper chain around it. -/
structure BlockView where
  markers : List String
  wrappers : List WrapperPair
deriving DecidableEq

/-- Embedding of listItemDowncastConverter: nothing happens unless the
triggering attribute key is recognized and every set list attribute is still
consumable; then the attributes are consumed, the old markers are removed
and the block unwrapped (removeCustomMarkerElements, unwrapListItemBlock),
and fresh markers and wrappers are produced (insertCustomMarkerElements,
wrapListItemBlock). -/
def listItemDowncastConvert (attributeNames : List String)
    (strategies : List DowncastStrategy) (revPrefix : List Block)
    (listItem : Block) (attributeKey : String)
    (st : BlockView × ModelConsumable) : BlockView × ModelConsumable :=
  if attributeNames.contains attributeKey = false then st
  else
    let res := attributesConsumer attributeNames listItem st.2
    if res.1 = false then st
    else
      ({ markers := customMarkers strategies revPrefix listItem
         wrappers := wrapListItemBlock strategies revPrefix listItem },
        res.2)


/-- The governing blocks walked by wrapListItemBlock, each with the
remaining reversed prefix at its level: the block itself at its own indent,
then at each lower level the nearest preceding sibling block with lower
indent, until level zero is wrapped or no such block exists. -/
def govSteps : Nat → Block → List Block → List (Block × List Block)
  | 0, cur, rev => [(cur, rev)]
  | indent + 1, cur, rev =>
    (cur, rev) ::
      match findLowerIndentSibling rev (listIndentOf cur) with
      | none => []
      | some (b, rest) => govSteps indent b rest


/-- An ancestor element of a view element: its name and the view attributes
the wrapper strategies inspect. -/
structure ViewAncestor where
  vname : String
  vattrs : List (String × AttrValue)
deriving DecidableEq

/-- The view element a model block maps to: its element name and its
ancestor elements from the immediate parent up to, excluding, the editable
root. -/
structure ViewElem where
  vname : String
  ancestors : List ViewAncestor
deriving DecidableEq

/-- The collaborators consulted by the reconversion scheduler: the
recognized list attribute names, the flat model document after the batch,
the model-to-view mapping, and the checkElement and checkAttributes query
events answered by the external wrapper strategies (the second argument of
checkAttributes tells an item wrapper from a list wrapper). -/
structure SchedCtx where
  attributeNames : List String
  doc : List Block
  viewOf : Nat → Option ViewElem
  checkElement : Nat → Bool
  checkAttributes : Bool → List (String × AttrValue) →
    Option (List (String × AttrValue)) → Bool

/-- A differ entry: an insertion of a node with its name, width and
attributes, a removal carrying the removed attributes, or an attribute
change at the position of the changed item. -/
inductive ChangeEntry where
  | insert (position : Nat) (ename : String) (length : Nat)
      (attributes : List (String × AttrValue))
  | remove (position : Nat) (ename : String)
      (attributes : List (String × AttrValue))
  | attribute (position : Nat) (attributeKey : String)
      (attributeOldValue attributeNewValue : Option AttrValue)
deriving DecidableEq

/-- The structural helper of listRunLen, recursive on the remaining
document length. -/
def listRunLenAux (doc : List Block) : Nat → Nat → Nat
  | 0, _ => 0
  | fuel + 1, i =>
    if i < doc.length then
      if isListItemBlock (getBlock doc i) then
        listRunLenAux doc fuel (i + 1) + 1
      else 0
    else 0

/-- Modelled from the spec: the length of the contiguous run of sibling
list blocks starting at the given index. -/
def listRunLen (doc : List Block) (i : Nat) : Nat :=
  listRunLenAux doc (doc.length - i) i

/-- Modelled from the spec: the indices of the contiguous run of sibling
list blocks starting at a list head (iterateSiblingListBlocks forward). -/
def listRun (doc : List Block) (i : Nat) : List Nat :=
  (List.range (listRunLen doc i)).map (fun k => i + k)

/-- Modelled from the spec: the number of consecutive list blocks directly
before the index. -/
def backListLen (doc : List Block) : Nat → Nat
  | 0 => 0
  | i + 1 =>
    if isListItemBlock (getBlock doc i) then backListLen doc i + 1 else 0

/-- Modelled from the spec: the first block of the contiguous run of
sibling list blocks containing the index. -/
def headIndex (doc : List Block) (i : Nat) : Nat :=
  i - backListLen doc i

/-- Modelled from the spec (findAndAddListHeadToMap): the candidate list
head recorded for a position; when the node before the position is a list
block this is the head of the run containing it, otherwise the node after
the position when that node is a list block, and nothing otherwise. -/
def findListHead (doc : List Block) (p : Nat) : Option Nat :=
  if 0 < p ∧ isListItemBlock (getBlock doc (p - 1)) = true then
    some (headIndex doc (p - 1))
  else if isListItemBlock (getBlock doc p) then some p
  else none

/-- Records a candidate head among the distinct recorded heads. -/
def addHead (heads : List Nat) : Option Nat → List Nat
  | none => heads
  | some h => if h ∈ heads then heads else heads ++ [h]

/-- Truncates or extends the snapshot stack to the given length, new slots
being holes, mirroring an assignment to the length of an array. -/
def stackSetLength (stack : List (Option (List (String × AttrValue))))
    (n : Nat) : List (Option (List (String × AttrValue))) :=
  stack.take n ++ List.replicate (n - stack.length) none

/-- Writes a snapshot at an index of the stack, extending the stack with
holes when the index lies beyond the end. -/
def stackSet (stack : List (Option (List (String × AttrValue)))) (i : Nat)
    (v : List (String × AttrValue)) :
    List (Option (List (String × AttrValue))) :=
  (stackSetLength stack (max stack.length (i + 1))).set i (some v)

/-- Reads the stack at a possibly negative index, answering a hole outside
the bounds. -/
def stackGet (stack : List (Option (List (String × AttrValue)))) (z : Int) :
    Option (List (String × AttrValue)) :=
  if z < 0 then none
  else (stack.getD z.toNat none)

/-- Embedding of doesItemBlockRequiresRefresh: an item without a mapped
view element needs no refresh; otherwise the checkElement event may request
one, and a paragraph or listItem element needs one exactly when its bogus
classification disagrees with the current view element name (a bogus
classification shown as a real paragraph, or a real classification shown as
the bogus span). -/
def doesItemBlockRequiresRefresh (ctx : SchedCtx) (i : Nat)
    (blocks : Option (List Nat)) : Bool :=
  match ctx.viewOf i with
  | none => false
  | some v =>
    if ctx.checkElement i then true
    else
      let b := getBlock ctx.doc i
      if b.name ≠ "paragraph" ∧ b.name ≠ "listItem" then false
      else
        let useBogus := shouldUseBogusParagraph b ctx.attributeNames
          (blocks.getD (getAllListItemBlocks ctx.doc i))
        if useBogus = true ∧ v.vname = "p" then true
        else if useBogus = false ∧ v.vname = "span" then true
        else false

/-- The ancestor walk of doesItemWrappingRequiresRefresh: ancestors that
are neither list nor list-item views are skipped; on each list or list-item
wrapper the checkAttributes event is fired with the snapshot at the current
level, a true answer requesting a refresh; each list wrapper moves one
level down, and once the level drops below zero the wrapping is confirmed;
reaching the editable root first requests a refresh. -/
def wrappingWalk (ctx : SchedCtx) (ancestors : List ViewAncestor)
    (stack : List (Option (List (String × AttrValue)))) (indent : Int) :
    Bool :=
  match ancestors with
  | [] => true
  | a :: rest =>
    if isListViewName a.vname = false ∧ isListItemViewName a.vname = false
    then wrappingWalk ctx rest stack indent
    else
      if ctx.checkAttributes (isListItemViewName a.vname) a.vattrs
          (stackGet stack indent) then true
      else if isListViewName a.vname then
        if indent - 1 < 0 then false
        else wrappingWalk ctx rest stack (indent - 1)
      else wrappingWalk ctx rest stack indent

/-- Embedding of doesItemWrappingRequiresRefresh: items directly affected
by a change of this batch are exempt; otherwise the ancestor walk verifies
the wrapper chain against the snapshot stack, starting at the top of the
stack.  The source asserts the mapping exists; an unmapped item answers
false here. -/
def doesItemWrappingRequiresRefresh (ctx : SchedCtx) (i : Nat)
    (stack : List (Option (List (String × AttrValue))))
    (changedItems : List Nat) : Bool :=
  if i ∈ changedItems then false
  else
    match ctx.viewOf i with
    | none => false
    | some v => wrappingWalk ctx v.ancestors stack ((stack.length : Int) - 1)

/-- The attributes of a node restricted to the recognized list attributes,
as snapshotted on the walk stack. -/
def filteredAttrsOf (ctx : SchedCtx) (b : Block) : List (String × AttrValue) :=
  b.attrs.filter (fun kv => ctx.attributeNames.contains kv.1)

/-- The state of the collect walk: the blocks already visited, the
per-indent snapshot stack and the collected refresh list. -/
structure CollectState where
  visited : List Nat
  stack : List (Option (List (String × AttrValue)))
  out : List Nat

/-- One iteration of the collect walk of collectListItemsToRefresh at a run
index: already visited nodes are skipped; otherwise the stack is trimmed
when the indent dropped against the preceding sibling, the snapshot at the
indent of the node is updated, and every block of the item of the node is
visited and collected when either its bogus classification or its wrapping
requires a refresh. -/
def collectStep (ctx : SchedCtx) (changedItems : List Nat) (head : Nat)
    (st : CollectState) (idx : Nat) : CollectState :=
  if idx ∈ st.visited then st
  else
    let node := getBlock ctx.doc idx
    let itemIndent := listIndentOf node
    let stack1 :=
      if head < idx ∧ itemIndent < listIndentOf (getBlock ctx.doc (idx - 1))
      then stackSetLength st.stack (itemIndent + 1)
      else st.stack
    let stack2 := stackSet stack1 itemIndent (filteredAttrsOf ctx node)
    let blocks := getListItemBlocksFwd ctx.doc idx
    let out2 := blocks.foldl (fun acc blk =>
      if doesItemBlockRequiresRefresh ctx blk (some blocks) then acc ++ [blk]
      else if doesItemWrappingRequiresRefresh ctx blk stack2 changedItems
      then acc ++ [blk]
      else acc) st.out
    { visited := st.visited ++ blocks, stack := stack2, out := out2 }

/-- Embedding of collectListItemsToRefresh: the refresh list collected by
walking the run of the given list head. -/
def collectListItemsToRefresh (ctx : SchedCtx) (head : Nat)
    (changedItems : List Nat) : List Nat :=
  ((listRun ctx.doc head).foldl (collectStep ctx changedItems head)
    { visited := [], stack := [], out := [] }).out

/-- The blocks visited by the collect walk of one list head. -/
def collectVisited (ctx : SchedCtx) (head : Nat)
    (changedItems : List Nat) : List Nat :=
  ((listRun ctx.doc head).foldl (collectStep ctx changedItems head)
    { visited := [], stack := [], out := [] }).visited

/-- The accumulator of the differ scan: the directly collected refresh
list, the recorded candidate heads and the items changed by this batch. -/
structure SchedAcc where
  itemsToRefresh : List Nat
  heads : List Nat
  changedItems : List Nat
deriving DecidableEq

/-- Embedding of the differ scan of reconvertItemsOnDataChange, one entry
at a time: an insertion of a non-text node records the head at its
position, and also after the inserted span when the node is not
list-tagged, while a list-tagged insertion joins the changed set; a removal
of a list-tagged node records the head at its position; an attribute change
of a recognized key records the head of the item, on removal of the value
also the head just after the block together with a direct bogus
reclassification check of the block, and otherwise joins the changed set;
any other attribute change on a list block gets only the reclassification
check. -/
def processEntry (ctx : SchedCtx) (acc : SchedAcc) : ChangeEntry → SchedAcc
  | .insert position ename length attributes =>
    if ename ≠ "$text" then
      let heads1 := addHead acc.heads (findListHead ctx.doc position)
      if (attributes.lookup "listItemId").isNone then
        { acc with
          heads := addHead heads1 (findListHead ctx.doc (position + length)) }
      else
        { acc with heads := heads1
                   changedItems := acc.changedItems ++ [position] }
    else acc
  | .remove position _ attributes =>
    if (attributes.lookup "listItemId").isSome then
      { acc with heads := addHead acc.heads (findListHead ctx.doc position) }
    else acc
  | .attribute position attributeKey _ attributeNewValue =>
    if ctx.attributeNames.contains attributeKey then
      let heads1 := addHead acc.heads (findListHead ctx.doc position)
      if attributeNewValue.isNone then
        let heads2 := addHead heads1 (findListHead ctx.doc (position + 1))
        if doesItemBlockRequiresRefresh ctx position none then
          { acc with heads := heads2
                     itemsToRefresh := acc.itemsToRefresh ++ [position] }
        else { acc with heads := heads2 }
      else
        { acc with heads := heads1
                   changedItems := acc.changedItems ++ [position] }
    else
      if isListItemBlock (getBlock ctx.doc position) then
        if doesItemBlockRequiresRefresh ctx position none then
          { acc with itemsToRefresh := acc.itemsToRefresh ++ [position] }
        else acc
      else acc

/-- The differ scan over all entries of the batch. -/
def processEntries (ctx : SchedCtx) (changes : List ChangeEntry) : SchedAcc :=
  changes.foldl (processEntry ctx)
    { itemsToRefresh := [], heads := [], changedItems := [] }

/-- First-occurrence deduplication, mirroring iteration over a set built
from a list. -/
def firstDedup (l : List Nat) : List Nat :=
  l.foldl (fun acc x => if x ∈ acc then acc else acc ++ [x]) []

/-- The raw refresh list of one scheduler run: the direct reclassification
pushes of the scan followed by the collect walks of every recorded head. -/
def reconvertItemsRaw (ctx : SchedCtx) (changes : List ChangeEntry) :
    List Nat :=
  let acc := processEntries ctx changes
  acc.heads.foldl
    (fun out h => out ++ collectListItemsToRefresh ctx h acc.changedItems)
    acc.itemsToRefresh

/-- Embedding of reconvertItemsOnDataChange: reconvertItem is invoked once
per distinct element of the collected refresh list, in first-occurrence
order. -/
def reconvertItemsOnDataChange (ctx : SchedCtx)
    (changes : List ChangeEntry) : List Nat :=
  firstDedup (reconvertItemsRaw ctx changes)


/-- A run head: a list block whose direct predecessor is not a list block,
the first block of a contiguous run of sibling list blocks. -/
def isRunHead (doc : List Block) (h : Nat) : Prop :=
  isListItemBlock (getBlock doc h) = true ∧
    (h = 0 ∨ isListItemBlock (getBlock doc (h - 1)) = false)


/-- The width of the forward item-block interval of an index: one for a
block without listItemId, the same-identifier stretch otherwise. -/
def fwdLenOf (doc : List Block) (i : Nat) : Nat :=
  match (getBlock doc i).getAttr "listItemId" with
  | none => 1
  | some v => sameIdFwdLen doc i v


/-- The number of list-view wrappers among the ancestors of a view
element. -/
def listAncCount (ancestors : List ViewAncestor) : Nat :=
  (ancestors.filter (fun a => isListViewName a.vname)).length


mutual
/-- A nested list of the supported markup shape. -/
inductive NList where
  | mk (ordered : Bool) (items : List NItem)
/-- An item of a nested list: one content block and an optional nested
sublist after it. -/
inductive NItem where
  | mk (content : String) (sub : Option NList)
end

/-- The markup tag of a nested list. -/
def listTag (ordered : Bool) : String :=
  if ordered then "ol" else "ul"

/-- The model list type assigned under a markup tag, numbered under ol and
bulleted otherwise. -/
def typeOfTag (tag : String) : String :=
  if tag == "ol" then "numbered" else "bulleted"

mutual
/-- Modelled from the spec: the conversion pipeline walks the nested
markup depth first; each list item first converts its content to a plain
paragraph block and its nested sublist recursively, then runs the list
item upcast converter of the source on the resulting model range with a
fresh identifier, the tag of the enclosing list and the nesting depth. -/
def upcastNItem (tag : String) (d : Nat) (it : NItem) (uid : Nat) :
    List Block × Nat :=
  match it with
  | .mk _ sub =>
    let sb := upcastSub d sub uid
    let range := ({ name := "paragraph", attrs := [] } : Block) :: sb.1
    match listItemUpcastConvert (fun _ => true) tag d (.nat sb.2) range with
    | none => (range, sb.2)
    | some r => (r.range, sb.2 + 1)

/-- The conversion of the optional nested sublist of an item. -/
def upcastSub (d : Nat) (sub : Option NList) (uid : Nat) :
    List Block × Nat :=
  match sub with
  | none => ([], uid)
  | some l => upcastNList (d + 1) l uid

/-- Modelled from the spec: the upcast of a whole nested list. -/
def upcastNList (d : Nat) (l : NList) (uid : Nat) : List Block × Nat :=
  match l with
  | .mk ordered items => upcastNItems (listTag ordered) d items uid

/-- Modelled from the spec: the upcast of the items of one list in
document order. -/
def upcastNItems (tag : String) (d : Nat) (items : List NItem) (uid : Nat) :
    List Block × Nat :=
  match items with
  | [] => ([], uid)
  | it :: rest =>
    let a := upcastNItem tag d it uid
    let b := upcastNItems tag d rest a.2
    (a.1 ++ b.1, b.2)
end

/-- The specification-side descriptor of one block of the nested markup:
its nesting depth and the list tags along the path from its own level to
the root. -/
structure BDesc where
  depth : Nat
  path : List String
deriving DecidableEq, Repr

instance : Inhabited BDesc := ⟨⟨0, []⟩⟩

mutual
/-- The specification-side flattening of one item of the nested markup. -/
def specNItem (d : Nat) (path : List String) (it : NItem) : List BDesc :=
  match it with
  | .mk _ sub =>
    { depth := d, path := path } ::
      (match sub with
       | none => []
       | some l => specNList (d + 1) path l)

/-- The specification-side flattening of a nested list into block
descriptors, one per item in document order. -/
def specNList (d : Nat) (path : List String) (l : NList) : List BDesc :=
  match l with
  | .mk ordered items => specNItems d (listTag ordered :: path) items

/-- The specification-side flattening of an item sequence. -/
def specNItems (d : Nat) (path : List String) (items : List NItem) :
    List BDesc :=
  match items with
  | [] => []
  | it :: rest => specNItem d path it ++ specNItems d path rest
end

/-- The list-wrapper element names of the governing chain of a block, the
chain the downcast wraps the block in, innermost first. -/
def govNames (fuel : Nat) (cur : Block) (rev : List Block) : List String :=
  (govSteps fuel cur rev).map
    (fun p => listViewElementName (p.1.getAttr "listType"))


/-- The model block produced for the content of one list item: a paragraph
carrying the fresh identifier, the depth and the tag-derived list type. -/
def mkPara (tag : String) (d uid : Nat) : Block :=
  { name := "paragraph"
    attrs := [("listItemId", .nat uid), ("listIndent", .nat d),
      ("listType", .str (typeOfTag tag))] }

/-- The correspondence between an upcast segment and its specification-side
descriptors: the identifiers are fresh, one per item, the indents are the
nesting depths, and the governing chain of every block, within the segment
extended by the outer reversed prefix, carries the expected list tags. -/
def UpcastSpecOK (u : Nat) (pre : List Block) (dmin : Nat)
    (ds : List BDesc) (res : List Block × Nat) : Prop :=
  u ≤ res.2 ∧
  res.1.length = ds.length ∧
  (∀ b ∈ res.1, isListItemBlock b = true ∧ dmin ≤ listIndentOf b) ∧
  (∀ b ∈ res.1, ∃ n, b.getAttr "listItemId" = some (.nat n) ∧
    u ≤ n ∧ n < res.2) ∧
  (res.1.map (fun b => b.getAttr "listItemId")).Nodup ∧
  (∀ i, i < res.1.length →
    listIndentOf (res.1.getD i default) = (ds.getD i default).depth ∧
    govNames (listIndentOf (res.1.getD i default)) (res.1.getD i default)
      ((res.1.take i).reverse ++ pre) = (ds.getD i default).path)

/-! ## Theorems -/

/-- The one-step unfolding of sameIdFwdLen. -/
theorem sameIdFwdLen_unfold (doc : List Block) (i : Nat) (v : AttrValue) :
    sameIdFwdLen doc i v =
      if i < doc.length then
        if (getBlock doc i).getAttr "listItemId" = some v then
          sameIdFwdLen doc (i + 1) v + 1
        else 0
      else 0 := by
  unfold sameIdFwdLen
  by_cases hi : i < doc.length
  · have hsplit : doc.length - i = (doc.length - (i + 1)) + 1 := by omega
    rw [hsplit]
    rw [sameIdFwdLenAux]
  · have h0 : doc.length - i = 0 := by omega
    rw [h0]
    rw [sameIdFwdLenAux]
    rw [if_neg hi]

/-- The one-step unfolding of listRunLen. -/
theorem listRunLen_unfold (doc : List Block) (i : Nat) :
    listRunLen doc i =
      if i < doc.length then
        if isListItemBlock (getBlock doc i) then listRunLen doc (i + 1) + 1
        else 0
      else 0 := by
  unfold listRunLen
  by_cases hi : i < doc.length
  · have hsplit : doc.length - i = (doc.length - (i + 1)) + 1 := by omega
    rw [hsplit]
    rw [listRunLenAux]
  · have h0 : doc.length - i = 0 := by omega
    rw [h0]
    rw [listRunLenAux]
    rw [if_neg hi]


/-- Characterization of shouldUseBogusParagraph: it holds exactly when the
block is a list block, every attribute key not starting with the selection
prefix is a recognized list attribute, and the logical item has fewer than
two blocks. -/
theorem shouldUseBogusParagraph_iff (item : Block) (names : List String)
    (blocks : List Nat) :
    shouldUseBogusParagraph item names blocks = true ↔
      (isListItemBlock item = true ∧
        (∀ k ∈ attrKeys item, strStartsWith k "selection:" = false →
          names.contains k = true) ∧
        blocks.length < 2) := by
  unfold shouldUseBogusParagraph
  split_ifs with h1 h2
  · simp only [decide_eq_true_eq]
    constructor
    · intro h
      refine ⟨h1, ?_, h⟩
      intro k hk hsw
      have hall := List.all_eq_true.mp h2 k hk
      simpa [hsw] using hall
    · exact fun h => h.2.2
  · refine iff_of_false (by simp) ?_
    rintro ⟨hi, hall, hlen⟩
    apply h2
    apply List.all_eq_true.mpr
    intro k hk
    by_cases hsw : strStartsWith k "selection:" = true
    · simp [hsw]
    · have hc := hall k hk (by simpa using hsw)
      simp only [Bool.or_eq_true]
      exact Or.inr hc
  · refine iff_of_false (by simp) ?_
    rintro ⟨hi, _, _⟩
    exact absurd hi (by simpa using h1)


/-- Looking up the key just set returns the new value. -/
theorem lookup_setAttr_self (l : List (String × AttrValue)) (k : String)
    (v : AttrValue) : (setAttr l k v).lookup k = some v := by
  induction l with
  | nil => simp [setAttr, List.lookup]
  | cons kv rest ih =>
    by_cases h : kv.1 == k
    · simp [setAttr, h, List.lookup]
    · have h3 : (k == kv.1) = false := by
        simp only [beq_eq_false_iff_ne]
        intro e
        exact h (by simp [e])
      simp [setAttr, h, List.lookup, h3, ih]

/-- Looking up a different key is unaffected by setAttr. -/
theorem lookup_setAttr_ne (l : List (String × AttrValue)) (k k0 : String)
    (v : AttrValue) (h : k0 ≠ k) :
    (setAttr l k v).lookup k0 = l.lookup k0 := by
  have h1 : (k0 == k) = false := beq_eq_false_iff_ne.mpr h
  induction l with
  | nil => simp [setAttr, List.lookup, h1]
  | cons kv rest ih =>
    by_cases hk : kv.1 == k
    · have hkv : kv.1 = k := eq_of_beq hk
      have h2 : (k0 == kv.1) = false := by rw [hkv]; exact h1
      simp [setAttr, hk, List.lookup, h1, h2]
    · simp only [setAttr, hk, Bool.false_eq_true, ite_false]
      simp only [List.lookup]
      cases hkv : k0 == kv.1
      · simpa using ih
      · rfl


/-- The name of a block is unchanged by the list attribute assignment. -/
theorem name_setListAttrs (id : AttrValue) (indent : Nat) (ty : String)
    (b : Block) : (setListAttrs id indent ty b).name = b.name := rfl

/-- The listItemId attribute after the list attribute assignment. -/
theorem getAttr_setListAttrs_id (id : AttrValue) (indent : Nat) (ty : String)
    (b : Block) :
    (setListAttrs id indent ty b).getAttr "listItemId" = some id := by
  unfold setListAttrs Block.getAttr
  rw [lookup_setAttr_ne _ _ _ _ (by decide),
    lookup_setAttr_ne _ _ _ _ (by decide), lookup_setAttr_self]

/-- The listIndent attribute after the list attribute assignment. -/
theorem getAttr_setListAttrs_indent (id : AttrValue) (indent : Nat)
    (ty : String) (b : Block) :
    (setListAttrs id indent ty b).getAttr "listIndent"
      = some (.nat indent) := by
  unfold setListAttrs Block.getAttr
  rw [lookup_setAttr_ne _ _ _ _ (by decide), lookup_setAttr_self]

/-- The listType attribute after the list attribute assignment. -/
theorem getAttr_setListAttrs_type (id : AttrValue) (indent : Nat)
    (ty : String) (b : Block) :
    (setListAttrs id indent ty b).getAttr "listType" = some (.str ty) := by
  unfold setListAttrs Block.getAttr
  rw [lookup_setAttr_self]

/-- C1: a block renders as a bogus paragraph if and only if it is a
list-item block, every attribute key on it that does not start with the
selection-bookkeeping prefix belongs to the recognized list-attribute set,
and its logical item has fewer than two blocks; when this holds the creator
produces the non-semantic span wrapper in the editing pipeline and the
transparently rendered paragraph in the data pipeline, and otherwise it
produces no element. -/
theorem c1_bogus_paragraph_policy (attributeNames : List String)
    (doc : List Block) (i : Nat) :
    (shouldUseBogusParagraphAt doc i attributeNames = true ↔
      (isListItemBlock (getBlock doc i) = true ∧
        (∀ k ∈ attrKeys (getBlock doc i),
          strStartsWith k "selection:" = false →
          attributeNames.contains k = true) ∧
        (getAllListItemBlocks doc i).length < 2)) ∧
    (bogusParagraphCreator attributeNames false doc i
        = some (.span "ck-list-bogus-paragraph") ↔
      shouldUseBogusParagraphAt doc i attributeNames = true) ∧
    (bogusParagraphCreator attributeNames true doc i = some .pTransparent ↔
      shouldUseBogusParagraphAt doc i attributeNames = true) ∧
    (bogusParagraphCreator attributeNames false doc i = none ↔
      shouldUseBogusParagraphAt doc i attributeNames = false) ∧
    (bogusParagraphCreator attributeNames true doc i = none ↔
      shouldUseBogusParagraphAt doc i attributeNames = false) := by
  refine ⟨shouldUseBogusParagraph_iff _ _ _, ?_, ?_, ?_, ?_⟩ <;>
    · unfold bogusParagraphCreator
      cases h : shouldUseBogusParagraphAt doc i attributeNames <;> simp [h]

/-- C9: for every list view element the clean-list upcast converter removes
exactly the direct children that are neither list-item views nor nested list
views, keeps the qualifying children in place and in order, and normalizes
malformed input only by deletion: the converter is a total function that
never raises, and without the name consumable it leaves the element
untouched. -/
theorem c9_clean_list (n : String) (a : List (String × AttrValue))
    (cs : List ViewNode) :
    (listUpcastCleanList true (.element n a cs)
        = .element n a (cs.filter (fun c => c.isLi || c.isList))) ∧
    (∀ c ∈ (listUpcastCleanList true (.element n a cs)).childrenOf,
      c ∈ cs ∧ (c.isLi || c.isList) = true) ∧
    (∀ c ∈ cs, (c.isLi || c.isList) = true →
      c ∈ (listUpcastCleanList true (.element n a cs)).childrenOf) ∧
    List.Sublist (listUpcastCleanList true (.element n a cs)).childrenOf cs ∧
    (∀ v, listUpcastCleanList false v = v) := by
  have hred : listUpcastCleanList true (.element n a cs)
      = .element n a (cs.filter (fun c => c.isLi || c.isList)) := by
    simp [listUpcastCleanList]
  refine ⟨hred, ?_, ?_, ?_, ?_⟩
  · intro c hc
    rw [hred] at hc
    simp only [ViewNode.childrenOf] at hc
    exact ⟨(List.mem_filter.mp hc).1, (List.mem_filter.mp hc).2⟩
  · intro c hc hp
    rw [hred]
    simp only [ViewNode.childrenOf]
    exact List.mem_filter.mpr ⟨hc, hp⟩
  · rw [hred]
    simp only [ViewNode.childrenOf]
    exact List.filter_sublist cs
  · intro v
    simp [listUpcastCleanList]

/-- Reading an element of a mapped list through getD, below the length. -/
theorem getD_map_of_lt (l : List Block) (f : Block → Block) (j : Nat)
    (h : j < l.length) : (l.map f).getD j default = f (l.getD j default) := by
  have h1 : l[j]? = some l[j] := List.getElem?_eq_getElem h
  simp [List.getD_eq_getElem?_getD, List.getElem?_map, h1]

/-- A getD below the length is a member of the list. -/
theorem getD_mem_of_lt (l : List Block) (j : Nat) (h : j < l.length) :
    l.getD j default ∈ l := by
  have h1 : l[j]? = some l[j] := List.getElem?_eq_getElem h
  simp only [List.getD_eq_getElem?_getD, h1, Option.getD_some]
  exact List.getElem_mem h

/-- C4: the upcast converter assigns the one fresh identifier, the source
markup nesting depth as listIndent, and a list type that is numbered under
an ol parent and bulleted otherwise unless the first converted item already
carries a listType, to exactly those converted items of the range that do
not already carry a listItemId; every other block of the range is left
unchanged, and assuming the fresh identifier is globally unique, the blocks
carrying it afterwards are exactly the newly assigned ones. -/
theorem c4_upcast_assignment (allows : String → Bool) (parentName : String)
    (indent : Nat) (freshId : AttrValue) (range : List Block)
    (hne : range.filter (fun b => allows b.name) ≠ [])
    (hfresh : ∀ b ∈ range, b.getAttr "listItemId" ≠ some freshId) :
    ∃ r ty,
      listItemUpcastConvert allows parentName indent freshId range
          = some r ∧
      r.range.length = range.length ∧
      (∀ j, j < range.length →
        (allows (range.getD j default).name = true ∧
            (range.getD j default).hasAttr "listItemId" = false →
          (r.range.getD j default).getAttr "listItemId" = some freshId ∧
          (r.range.getD j default).getAttr "listIndent"
              = some (.nat indent) ∧
          (r.range.getD j default).getAttr "listType" = some (.str ty)) ∧
        (¬ (allows (range.getD j default).name = true ∧
            (range.getD j default).hasAttr "listItemId" = false) →
          r.range.getD j default = range.getD j default) ∧
        ((r.range.getD j default).getAttr "listItemId" = some freshId ↔
          allows (range.getD j default).name = true ∧
            (range.getD j default).hasAttr "listItemId" = false)) ∧
      (((range.filter (fun b => allows b.name)).headD default).hasAttr
          "listType" = false →
        ty = if parentName == "ol" then "numbered" else "bulleted") ∧
      (∀ t, ((range.filter (fun b => allows b.name)).headD default).getAttr
            "listType" = some (.str t) → t ≠ "" → ty = t) := by
  have hempty : (range.filter (fun b => allows b.name)).isEmpty = false := by
    cases hi : (range.filter (fun b => allows b.name)).isEmpty
    · rfl
    · exact absurd (by simpa using hi) hne
  set items := range.filter (fun b => allows b.name) with hitems
  set ty := upcastListType parentName items with hty
  set f := upcastUpdate allows freshId indent ty with hf
  have hconv : listItemUpcastConvert allows parentName indent freshId range
      = some
        { range := range.map f
          keepEmptyFirst :=
            decide (1 < ((range.map f).filter
                (fun b => allows b.name)).length) &&
              decide (((((range.map f).filter
                  (fun b => allows b.name)).getD 1 default).getAttr
                    "listItemId") ≠ some freshId) } := by
    have hempty2 : (List.filter (fun b => allows b.name) range).isEmpty
        = false := hempty
    simp only [listItemUpcastConvert, hempty2, Bool.false_eq_true, if_false]
  refine ⟨_, ty, hconv, by simp, ?_, ?_, ?_⟩
  · intro j hj
    have hget : ((range.map f).getD j default) = f (range.getD j default) :=
      getD_map_of_lt range f j hj
    refine ⟨?_, ?_, ?_⟩
    · intro hcond
      rw [hget, hf]
      unfold upcastUpdate
      rw [if_pos hcond]
      exact ⟨getAttr_setListAttrs_id _ _ _ _,
        getAttr_setListAttrs_indent _ _ _ _, getAttr_setListAttrs_type _ _ _ _⟩
    · intro hcond
      rw [hget, hf]
      unfold upcastUpdate
      rw [if_neg hcond]
    · constructor
      · intro hid
        by_contra hcond
        rw [hget, hf] at hid
        unfold upcastUpdate at hid
        rw [if_neg hcond] at hid
        exact hfresh _ (getD_mem_of_lt range j hj) hid
      · intro hcond
        rw [hget, hf]
        unfold upcastUpdate
        rw [if_pos hcond]
        exact getAttr_setListAttrs_id _ _ _ _
  · intro hno
    have hnone : (items.headD default).getAttr "listType" = none := by
      unfold Block.hasAttr at hno
      exact Option.isNone_iff_eq_none.mp (by simpa using hno)
    rw [hty]
    unfold upcastListType
    rw [hnone]
  · intro t hsome hne2
    have hbe : (t == "") = false := beq_eq_false_iff_ne.mpr hne2
    rw [hty]
    unfold upcastListType
    rw [hsome]
    simp [hbe]

/-- Witness for C4 at a concrete input: one paragraph inside an unordered
list item receives the fresh identifier, indent zero and the bulleted type. -/
theorem c4_upcast_assignment_witness :
    (([({ name := "paragraph", attrs := [] } : Block)].filter
        (fun b => b.name == "paragraph")) ≠ []) ∧
    (∀ b ∈ [({ name := "paragraph", attrs := [] } : Block)],
      b.getAttr "listItemId" ≠ some (.nat 1)) ∧
    (∃ r ty,
      listItemUpcastConvert (fun s => s == "paragraph") "ul" 0 (.nat 1)
          [({ name := "paragraph", attrs := [] } : Block)] = some r ∧
      r.range.length
          = ([({ name := "paragraph", attrs := [] } : Block)]).length ∧
      (∀ j, j < ([({ name := "paragraph", attrs := [] } : Block)]).length →
        ((fun s => s == "paragraph")
              (([({ name := "paragraph", attrs := [] } : Block)]).getD j
                default).name = true ∧
            (([({ name := "paragraph", attrs := [] } : Block)]).getD j
              default).hasAttr "listItemId" = false →
          (r.range.getD j default).getAttr "listItemId" = some (.nat 1) ∧
          (r.range.getD j default).getAttr "listIndent" = some (.nat 0) ∧
          (r.range.getD j default).getAttr "listType" = some (.str ty)) ∧
        (¬ ((fun s => s == "paragraph")
              (([({ name := "paragraph", attrs := [] } : Block)]).getD j
                default).name = true ∧
            (([({ name := "paragraph", attrs := [] } : Block)]).getD j
              default).hasAttr "listItemId" = false) →
          r.range.getD j default
            = ([({ name := "paragraph", attrs := [] } : Block)]).getD j
                default) ∧
        ((r.range.getD j default).getAttr "listItemId" = some (.nat 1) ↔
          (fun s => s == "paragraph")
              (([({ name := "paragraph", attrs := [] } : Block)]).getD j
                default).name = true ∧
            (([({ name := "paragraph", attrs := [] } : Block)]).getD j
              default).hasAttr "listItemId" = false)) ∧
      ((([({ name := "paragraph", attrs := [] } : Block)]).filter
          (fun b => (fun s => s == "paragraph") b.name)
            |>.headD default).hasAttr "listType" = false →
        ty = if ("ul" == "ol") then "numbered" else "bulleted") ∧
      (∀ t, (([({ name := "paragraph", attrs := [] } : Block)]).filter
          (fun b => (fun s => s == "paragraph") b.name)
            |>.headD default).getAttr "listType" = some (.str t) → t ≠ "" →
        ty = t)) :=
  ⟨by decide, by decide,
    c4_upcast_assignment (fun s => s == "paragraph") "ul" 0 (.nat 1)
      [({ name := "paragraph", attrs := [] } : Block)]
      (by decide) (by decide)⟩

/-- The upcast per-block update does not change the element name. -/
theorem name_upcastUpdate (allows : String → Bool) (freshId : AttrValue)
    (indent : Nat) (ty : String) (b : Block) :
    (upcastUpdate allows freshId indent ty b).name = b.name := by
  unfold upcastUpdate
  split_ifs <;> rfl

/-- Filtering by element name commutes with a name-preserving map. -/
theorem filter_name_map (allows : String → Bool) (f : Block → Block)
    (hname : ∀ b, (f b).name = b.name) (l : List Block) :
    (l.map f).filter (fun b => allows b.name)
      = (l.filter (fun b => allows b.name)).map f := by
  induction l with
  | nil => rfl
  | cons b rest ih =>
    simp only [List.map_cons, List.filter_cons, hname b]
    cases ha : allows b.name
    · simpa [ha] using ih
    · simpa [ha] using ih

/-- C7: the first converted item is kept as an explicit empty element
exactly when more than one item resulted and the second item carries a
listItemId different from the freshly assigned one at the time of the check,
which runs after the attribute assignment; equivalently, in terms of the
state before conversion and assuming the fresh identifier is globally
unique, exactly when the second converted item already carried its own
identity, as a block starting a nested list does.  When the second item
shares the fresh identifier, in particular when it had no identifier and
just received the fresh one, no preservation is requested. -/
theorem c7_keep_first_block (allows : String → Bool) (parentName : String)
    (indent : Nat) (freshId : AttrValue) (range : List Block)
    (r : UpcastResult)
    (hconv : listItemUpcastConvert allows parentName indent freshId range
      = some r)
    (hfresh : ∀ b ∈ range, b.getAttr "listItemId" ≠ some freshId) :
    (r.keepEmptyFirst = true ↔
      1 < (r.range.filter (fun b => allows b.name)).length ∧
      ((r.range.filter (fun b => allows b.name)).getD 1 default).getAttr
          "listItemId" ≠ some freshId) ∧
    (r.keepEmptyFirst = true ↔
      1 < (range.filter (fun b => allows b.name)).length ∧
      ((range.filter (fun b => allows b.name)).getD 1 default).hasAttr
          "listItemId" = true) := by
  set items := range.filter (fun b => allows b.name) with hitems
  set f := upcastUpdate allows freshId indent (upcastListType parentName items)
    with hf
  have he : items.isEmpty = false := by
    cases he0 : items.isEmpty
    · rfl
    · exfalso
      have hnone : listItemUpcastConvert allows parentName indent freshId
          range = none := by
        have he2 : (List.filter (fun b => allows b.name) range).isEmpty
            = true := he0
        simp [listItemUpcastConvert, he2]
      rw [hnone] at hconv
      exact Option.noConfusion hconv
  have hr : r =
      { range := range.map f
        keepEmptyFirst :=
          decide (1 < ((range.map f).filter
              (fun b => allows b.name)).length) &&
            decide (((((range.map f).filter
                (fun b => allows b.name)).getD 1 default).getAttr
                  "listItemId") ≠ some freshId) } := by
    have he2 : (List.filter (fun b => allows b.name) range).isEmpty
        = false := he
    have h2 : listItemUpcastConvert allows parentName indent freshId range
        = some
          { range := range.map f
            keepEmptyFirst :=
              decide (1 < ((range.map f).filter
                  (fun b => allows b.name)).length) &&
                decide (((((range.map f).filter
                    (fun b => allows b.name)).getD 1 default).getAttr
                      "listItemId") ≠ some freshId) } := by
      simp only [listItemUpcastConvert, he2, Bool.false_eq_true, if_false]
    rw [hconv] at h2
    exact Option.some.inj h2
  have hfm : (range.map f).filter (fun b => allows b.name) = items.map f :=
    filter_name_map allows f (fun b => name_upcastUpdate _ _ _ _ b) range
  subst hr
  constructor
  · simp [Bool.and_eq_true, decide_eq_true_eq]
  · rw [hfm]
    simp only [Bool.and_eq_true, decide_eq_true_eq, List.length_map]
    cases hlt : decide (1 < items.length)
    · have hnlt : ¬ 1 < items.length := of_decide_eq_false hlt
      constructor
      · rintro ⟨h1, _⟩
        exact absurd h1 hnlt
      · rintro ⟨h1, _⟩
        exact absurd h1 hnlt
    · have hlt2 : 1 < items.length := of_decide_eq_true hlt
      have hget : (items.map f).getD 1 default = f (items.getD 1 default) :=
        getD_map_of_lt items f 1 hlt2
      have hmem : items.getD 1 default ∈ items := getD_mem_of_lt items 1 hlt2
      have hmf := List.mem_filter.mp (hitems ▸ hmem)
      have hrange : items.getD 1 default ∈ range := hmf.1
      have hallows : allows (items.getD 1 default).name = true := by
        simpa using hmf.2
      rw [hget]
      cases hhas : (items.getD 1 default).hasAttr "listItemId"
      · have hcond : allows (items.getD 1 default).name = true ∧
            (items.getD 1 default).hasAttr "listItemId" = false :=
          ⟨hallows, hhas⟩
        have hfb : f (items.getD 1 default)
            = setListAttrs freshId indent (upcastListType parentName items)
                (items.getD 1 default) := by
          rw [hf]
          unfold upcastUpdate
          rw [if_pos hcond]
        rw [hfb, getAttr_setListAttrs_id]
        constructor
        · rintro ⟨_, hne⟩
          exact absurd rfl hne
        · rintro ⟨_, hh⟩
          exact Bool.noConfusion hh
      · have hcond : ¬ (allows (items.getD 1 default).name = true ∧
            (items.getD 1 default).hasAttr "listItemId" = false) := by
          rintro ⟨_, hh⟩
          rw [hhas] at hh
          exact Bool.noConfusion hh
        have hfb : f (items.getD 1 default) = items.getD 1 default := by
          rw [hf]
          unfold upcastUpdate
          rw [if_neg hcond]
        rw [hfb]
        constructor
        · intro _
          exact ⟨hlt2, rfl⟩
        · intro _
          exact ⟨hlt2, hfresh _ hrange⟩

/-- Witness for C7 at a concrete input: a paragraph followed by a block
already carrying a different identity requests preservation of the first
block. -/
theorem c7_keep_first_block_witness :
    (listItemUpcastConvert (fun s => s == "paragraph") "ul" 0 (.nat 1)
        [({ name := "paragraph", attrs := [] } : Block),
          ({ name := "paragraph",
             attrs := [("listItemId", .nat 7), ("listIndent", .nat 1),
               ("listType", .str "bulleted")] } : Block)]
      = some
        { range :=
            [({ name := "paragraph",
                attrs := [("listItemId", .nat 1), ("listIndent", .nat 0),
                  ("listType", .str "bulleted")] } : Block),
              ({ name := "paragraph",
                 attrs := [("listItemId", .nat 7), ("listIndent", .nat 1),
                   ("listType", .str "bulleted")] } : Block)]
          keepEmptyFirst := true }) ∧
    (∀ b ∈ [({ name := "paragraph", attrs := [] } : Block),
        ({ name := "paragraph",
           attrs := [("listItemId", .nat 7), ("listIndent", .nat 1),
             ("listType", .str "bulleted")] } : Block)],
      b.getAttr "listItemId" ≠ some (.nat 1)) ∧
    (let rr : UpcastResult :=
      { range :=
          [({ name := "paragraph",
              attrs := [("listItemId", .nat 1), ("listIndent", .nat 0),
                ("listType", .str "bulleted")] } : Block),
            ({ name := "paragraph",
               attrs := [("listItemId", .nat 7), ("listIndent", .nat 1),
                 ("listType", .str "bulleted")] } : Block)]
        keepEmptyFirst := true }
    let rg : List Block :=
      [({ name := "paragraph", attrs := [] } : Block),
        ({ name := "paragraph",
           attrs := [("listItemId", .nat 7), ("listIndent", .nat 1),
             ("listType", .str "bulleted")] } : Block)]
    (rr.keepEmptyFirst = true ↔
      1 < (rr.range.filter (fun b => (fun s => s == "paragraph")
          b.name)).length ∧
      ((rr.range.filter (fun b => (fun s => s == "paragraph")
          b.name)).getD 1 default).getAttr "listItemId" ≠ some (.nat 1)) ∧
    (rr.keepEmptyFirst = true ↔
      1 < (rg.filter (fun b => (fun s => s == "paragraph")
          b.name)).length ∧
      ((rg.filter (fun b => (fun s => s == "paragraph")
          b.name)).getD 1 default).hasAttr "listItemId" = true)) := by
  refine ⟨by decide, by decide, ?_⟩
  exact c7_keep_first_block (fun s => s == "paragraph") "ul" 0 (.nat 1)
    _ _ (by decide) (by decide)

/-- C10: the list item downcast converter leaves the view and the
consumable state entirely unchanged, with no marker removal, unwrapping or
rewrapping, whenever the triggering attribute key is not in the recognized
set or some set list attribute fails the consumable test; the consumer
answers true exactly when every collected attribute event is still
consumable, and consumes nothing when it answers false. -/
theorem c10_downcast_frame (attributeNames : List String)
    (strategies : List DowncastStrategy) (revPrefix : List Block)
    (listItem : Block) (attributeKey : String)
    (st : BlockView × ModelConsumable) :
    (attributeNames.contains attributeKey = false →
      listItemDowncastConvert attributeNames strategies revPrefix listItem
        attributeKey st = st) ∧
    ((attributesConsumer attributeNames listItem st.2).1 = false →
      listItemDowncastConvert attributeNames strategies revPrefix listItem
        attributeKey st = st) ∧
    ((attributesConsumer attributeNames listItem st.2).1 = true ↔
      ∀ e ∈ consumerEvents attributeNames listItem,
        ¬ (st.2.test e = some false)) ∧
    ((attributesConsumer attributeNames listItem st.2).1 = false →
      (attributesConsumer attributeNames listItem st.2).2 = st.2) := by
  refine ⟨?_, ?_, ?_, ?_⟩
  · intro h
    have hmem : attributeKey ∉ attributeNames := by simpa using h
    simp [listItemDowncastConvert, hmem]
  · intro h
    simp only [listItemDowncastConvert]
    split_ifs with h1
    all_goals rfl
  · simp only [attributesConsumer]
    split_ifs with h1
    · exact iff_of_true (by simp)
        (fun e he => by simpa using List.all_eq_true.mp h1 e he)
    · refine iff_of_false (by simp) ?_
      intro hc
      exact h1 (List.all_eq_true.mpr (fun e he => by simpa using hc e he))
  · intro h
    simp only [attributesConsumer] at h ⊢
    split_ifs at h ⊢ with h1
    all_goals simp_all

/-- The wrapping loop produces exactly the wrapper pairs of the governing
blocks it walks. -/
theorem wrapChainGo_eq_govSteps (strategies : List DowncastStrategy) :
    ∀ (n : Nat) (cur : Block) (rev : List Block),
    wrapChainGo strategies n cur rev
      = (govSteps n cur rev).map (fun p => wrapPairFor strategies p.1)
  | 0, cur, rev => by simp [wrapChainGo, govSteps]
  | n + 1, cur, rev => by
    simp only [wrapChainGo, govSteps]
    cases hf : findLowerIndentSibling rev (listIndentOf cur) with
    | none => simp
    | some p =>
      obtain ⟨b, rest⟩ := p
      simp [wrapChainGo_eq_govSteps strategies n b rest]

/-- The governing walk visits at most one block per indent level. -/
theorem govSteps_length_le :
    ∀ (n : Nat) (cur : Block) (rev : List Block),
    (govSteps n cur rev).length ≤ n + 1
  | 0, cur, rev => by simp [govSteps]
  | n + 1, cur, rev => by
    simp only [govSteps]
    cases hf : findLowerIndentSibling rev (listIndentOf cur) with
    | none => simp
    | some p =>
      obtain ⟨b, rest⟩ := p
      simpa using Nat.succ_le_succ (govSteps_length_le n b rest)

/-- The governing walk is never empty. -/
theorem govSteps_ne_nil (n : Nat) (cur : Block) (rev : List Block) :
    govSteps n cur rev ≠ [] := by
  cases n with
  | zero => simp [govSteps]
  | succ n =>
    simp only [govSteps]
    cases findLowerIndentSibling rev (listIndentOf cur) <;> simp

/-- The governing walk starts with the block itself. -/
theorem govSteps_headD (n : Nat) (cur : Block) (rev : List Block)
    (d : Block × List Block) : (govSteps n cur rev).headD d = (cur, rev) := by
  cases n with
  | zero => rfl
  | succ n =>
    simp only [govSteps]
    cases findLowerIndentSibling rev (listIndentOf cur) <;> rfl

/-- A nonempty getLastD does not depend on the default. -/
theorem getLastD_of_ne_nil {α : Type} (l : List α) (d d2 : α)
    (h : l ≠ []) : l.getLastD d = l.getLastD d2 := by
  cases l with
  | nil => exact absurd rfl h
  | cons a t => rw [List.getLastD_cons, List.getLastD_cons]

/-- The governing walk either reaches level zero, covering every level, or
stops at the level where no preceding lower-indent block exists. -/
theorem govSteps_complete_or_stop :
    ∀ (n : Nat) (cur : Block) (rev : List Block),
    (govSteps n cur rev).length = n + 1 ∨
      findLowerIndentSibling
          (((govSteps n cur rev).getLastD (cur, rev)).2)
          (listIndentOf (((govSteps n cur rev).getLastD (cur, rev)).1))
        = none
  | 0, cur, rev => Or.inl (by simp [govSteps])
  | n + 1, cur, rev => by
    cases hf : findLowerIndentSibling rev (listIndentOf cur) with
    | none =>
      right
      simp [govSteps, hf]
    | some p =>
      obtain ⟨b, rest⟩ := p
      have hne := govSteps_ne_nil n b rest
      have hlast : ((cur, rev) :: govSteps n b rest).getLastD (cur, rev)
          = (govSteps n b rest).getLastD (b, rest) := by
        rw [List.getLastD_cons]
        exact getLastD_of_ne_nil _ _ _ hne
      rcases govSteps_complete_or_stop n b rest with hl | hr
      · left
        simp [govSteps, hf, hl]
      · right
        simp only [govSteps, hf]
        rw [hlast]
        exact hr

/-- A strategy of the matching scope with its attribute set on the
governing block records its attribute value on the wrapper. -/
theorem mem_strategyAttrs (strategies : List DowncastStrategy)
    (scope : String) (cur : Block) (s : DowncastStrategy) (v : AttrValue)
    (hs : s ∈ strategies) (hsc : s.scope = scope)
    (hscope : scope = "item" ∨ scope = "list")
    (hv : cur.getAttr s.attributeName = some v) :
    (s.attributeName, v) ∈ strategyAttrs strategies scope cur := by
  unfold strategyAttrs
  refine List.mem_filterMap.mpr ⟨s, hs, ?_⟩
  have hhas : cur.hasAttr s.attributeName = true := by
    unfold Block.hasAttr
    rw [hv]
    rfl
  rcases hscope with rfl | rfl <;> simp [hsc, hhas, hv]

/-- C5: during downcast of a block carrying listIndent n, the block is
wrapped in exactly one item-wrapper and list-wrapper pair per walked indent
level from n down to zero, each pair built from the block governing that
level (the nearest preceding lower-indent sibling at each step) and carrying
the attribute of every registered item-scoped or list-scoped strategy whose
attribute is set on the governing block, together with the governing
listItemId on the item wrapper and the listType-derived element name on the
list wrapper; the walk covers all n plus one levels unless at some level no
preceding lower-indent block exists, in which case wrapping stops there
without error, leaving the outer levels unwrapped. -/
theorem c5_wrapper_chain (strategies : List DowncastStrategy)
    (revPrefix : List Block) (listItem : Block)
    (hind : listItem.hasAttr "listIndent" = true) :
    (wrapListItemBlock strategies revPrefix listItem
        = (govSteps (listIndentOf listItem) listItem revPrefix).map
            (fun p => wrapPairFor strategies p.1)) ∧
    (govSteps (listIndentOf listItem) listItem revPrefix).headD
        (listItem, revPrefix) = (listItem, revPrefix) ∧
    (govSteps (listIndentOf listItem) listItem revPrefix).length
        ≤ listIndentOf listItem + 1 ∧
    ((govSteps (listIndentOf listItem) listItem revPrefix).length
        = listIndentOf listItem + 1 ∨
      findLowerIndentSibling
          (((govSteps (listIndentOf listItem) listItem revPrefix).getLastD
            (listItem, revPrefix)).2)
          (listIndentOf (((govSteps (listIndentOf listItem) listItem
            revPrefix).getLastD (listItem, revPrefix)).1)) = none) ∧
    (∀ p ∈ govSteps (listIndentOf listItem) listItem revPrefix,
      ∀ s ∈ strategies, ∀ v : AttrValue,
        (s.scope = "item" → p.1.getAttr s.attributeName = some v →
          (s.attributeName, v) ∈ (wrapPairFor strategies p.1).itemAttrs) ∧
        (s.scope = "list" → p.1.getAttr s.attributeName = some v →
          (s.attributeName, v) ∈ (wrapPairFor strategies p.1).listAttrs) ∧
        (wrapPairFor strategies p.1).itemId = p.1.getAttr "listItemId" ∧
        (wrapPairFor strategies p.1).listName
          = listViewElementName (p.1.getAttr "listType")) := by
  have hnone : (listItem.getAttr "listIndent").isNone = false := by
    unfold Block.hasAttr at hind
    cases hx : listItem.getAttr "listIndent"
    · rw [hx] at hind
      exact Bool.noConfusion hind
    · rfl
  refine ⟨?_, govSteps_headD _ _ _ _, govSteps_length_le _ _ _,
    govSteps_complete_or_stop _ _ _, ?_⟩
  · unfold wrapListItemBlock
    rw [hnone]
    simp only [Bool.false_eq_true, if_false]
    exact wrapChainGo_eq_govSteps strategies _ _ _
  · intro p _ s hs v
    refine ⟨?_, ?_, rfl, rfl⟩
    · intro hsc hv
      exact mem_strategyAttrs strategies "item" p.1 s v hs hsc (Or.inl rfl) hv
    · intro hsc hv
      exact mem_strategyAttrs strategies "list" p.1 s v hs hsc (Or.inr rfl) hv

/-- Witness for C5 at a concrete input: an indent-one numbered block with a
list-scoped strategy attribute, under a root bulleted ancestor. -/
theorem c5_wrapper_chain_witness :
    ((({ name := "paragraph", attrs := [("listItemId", .nat 2), ("listIndent", .nat 1), ("listType", .str "numbered"), ("listStart", .nat 3)] } : Block)).hasAttr "listIndent" = true) ∧
    (
    (wrapListItemBlock ([({ scope := "list", attributeName := "listStart", markerElement := none } : DowncastStrategy)]) ([({ name := "paragraph", attrs := [("listItemId", .nat 1), ("listIndent", .nat 0), ("listType", .str "bulleted")] } : Block)]) (({ name := "paragraph", attrs := [("listItemId", .nat 2), ("listIndent", .nat 1), ("listType", .str "numbered"), ("listStart", .nat 3)] } : Block))
        = (govSteps (listIndentOf (({ name := "paragraph", attrs := [("listItemId", .nat 2), ("listIndent", .nat 1), ("listType", .str "numbered"), ("listStart", .nat 3)] } : Block))) (({ name := "paragraph", attrs := [("listItemId", .nat 2), ("listIndent", .nat 1), ("listType", .str "numbered"), ("listStart", .nat 3)] } : Block)) ([({ name := "paragraph", attrs := [("listItemId", .nat 1), ("listIndent", .nat 0), ("listType", .str "bulleted")] } : Block)])).map
            (fun p => wrapPairFor ([({ scope := "list", attributeName := "listStart", markerElement := none } : DowncastStrategy)]) p.1)) ∧
    (govSteps (listIndentOf (({ name := "paragraph", attrs := [("listItemId", .nat 2), ("listIndent", .nat 1), ("listType", .str "numbered"), ("listStart", .nat 3)] } : Block))) (({ name := "paragraph", attrs := [("listItemId", .nat 2), ("listIndent", .nat 1), ("listType", .str "numbered"), ("listStart", .nat 3)] } : Block)) ([({ name := "paragraph", attrs := [("listItemId", .nat 1), ("listIndent", .nat 0), ("listType", .str "bulleted")] } : Block)])).headD
        ((({ name := "paragraph", attrs := [("listItemId", .nat 2), ("listIndent", .nat 1), ("listType", .str "numbered"), ("listStart", .nat 3)] } : Block)), ([({ name := "paragraph", attrs := [("listItemId", .nat 1), ("listIndent", .nat 0), ("listType", .str "bulleted")] } : Block)])) = ((({ name := "paragraph", attrs := [("listItemId", .nat 2), ("listIndent", .nat 1), ("listType", .str "numbered"), ("listStart", .nat 3)] } : Block)), ([({ name := "paragraph", attrs := [("listItemId", .nat 1), ("listIndent", .nat 0), ("listType", .str "bulleted")] } : Block)])) ∧
    (govSteps (listIndentOf (({ name := "paragraph", attrs := [("listItemId", .nat 2), ("listIndent", .nat 1), ("listType", .str "numbered"), ("listStart", .nat 3)] } : Block))) (({ name := "paragraph", attrs := [("listItemId", .nat 2), ("listIndent", .nat 1), ("listType", .str "numbered"), ("listStart", .nat 3)] } : Block)) ([({ name := "paragraph", attrs := [("listItemId", .nat 1), ("listIndent", .nat 0), ("listType", .str "bulleted")] } : Block)])).length
        ≤ listIndentOf (({ name := "paragraph", attrs := [("listItemId", .nat 2), ("listIndent", .nat 1), ("listType", .str "numbered"), ("listStart", .nat 3)] } : Block)) + 1 ∧
    ((govSteps (listIndentOf (({ name := "paragraph", attrs := [("listItemId", .nat 2), ("listIndent", .nat 1), ("listType", .str "numbered"), ("listStart", .nat 3)] } : Block))) (({ name := "paragraph", attrs := [("listItemId", .nat 2), ("listIndent", .nat 1), ("listType", .str "numbered"), ("listStart", .nat 3)] } : Block)) ([({ name := "paragraph", attrs := [("listItemId", .nat 1), ("listIndent", .nat 0), ("listType", .str "bulleted")] } : Block)])).length
        = listIndentOf (({ name := "paragraph", attrs := [("listItemId", .nat 2), ("listIndent", .nat 1), ("listType", .str "numbered"), ("listStart", .nat 3)] } : Block)) + 1 ∨
      findLowerIndentSibling
          (((govSteps (listIndentOf (({ name := "paragraph", attrs := [("listItemId", .nat 2), ("listIndent", .nat 1), ("listType", .str "numbered"), ("listStart", .nat 3)] } : Block))) (({ name := "paragraph", attrs := [("listItemId", .nat 2), ("listIndent", .nat 1), ("listType", .str "numbered"), ("listStart", .nat 3)] } : Block)) ([({ name := "paragraph", attrs := [("listItemId", .nat 1), ("listIndent", .nat 0), ("listType", .str "bulleted")] } : Block)])).getLastD
            ((({ name := "paragraph", attrs := [("listItemId", .nat 2), ("listIndent", .nat 1), ("listType", .str "numbered"), ("listStart", .nat 3)] } : Block)), ([({ name := "paragraph", attrs := [("listItemId", .nat 1), ("listIndent", .nat 0), ("listType", .str "bulleted")] } : Block)]))).2)
          (listIndentOf (((govSteps (listIndentOf (({ name := "paragraph", attrs := [("listItemId", .nat 2), ("listIndent", .nat 1), ("listType", .str "numbered"), ("listStart", .nat 3)] } : Block))) (({ name := "paragraph", attrs := [("listItemId", .nat 2), ("listIndent", .nat 1), ("listType", .str "numbered"), ("listStart", .nat 3)] } : Block))
            ([({ name := "paragraph", attrs := [("listItemId", .nat 1), ("listIndent", .nat 0), ("listType", .str "bulleted")] } : Block)])).getLastD ((({ name := "paragraph", attrs := [("listItemId", .nat 2), ("listIndent", .nat 1), ("listType", .str "numbered"), ("listStart", .nat 3)] } : Block)), ([({ name := "paragraph", attrs := [("listItemId", .nat 1), ("listIndent", .nat 0), ("listType", .str "bulleted")] } : Block)]))).1)) = none) ∧
    (∀ p ∈ govSteps (listIndentOf (({ name := "paragraph", attrs := [("listItemId", .nat 2), ("listIndent", .nat 1), ("listType", .str "numbered"), ("listStart", .nat 3)] } : Block))) (({ name := "paragraph", attrs := [("listItemId", .nat 2), ("listIndent", .nat 1), ("listType", .str "numbered"), ("listStart", .nat 3)] } : Block)) ([({ name := "paragraph", attrs := [("listItemId", .nat 1), ("listIndent", .nat 0), ("listType", .str "bulleted")] } : Block)]),
      ∀ s ∈ ([({ scope := "list", attributeName := "listStart", markerElement := none } : DowncastStrategy)]), ∀ v : AttrValue,
        (s.scope = "item" → p.1.getAttr s.attributeName = some v →
          (s.attributeName, v) ∈ (wrapPairFor ([({ scope := "list", attributeName := "listStart", markerElement := none } : DowncastStrategy)]) p.1).itemAttrs) ∧
        (s.scope = "list" → p.1.getAttr s.attributeName = some v →
          (s.attributeName, v) ∈ (wrapPairFor ([({ scope := "list", attributeName := "listStart", markerElement := none } : DowncastStrategy)]) p.1).listAttrs) ∧
        (wrapPairFor ([({ scope := "list", attributeName := "listStart", markerElement := none } : DowncastStrategy)]) p.1).itemId = p.1.getAttr "listItemId" ∧
        (wrapPairFor ([({ scope := "list", attributeName := "listStart", markerElement := none } : DowncastStrategy)]) p.1).listName
          = listViewElementName (p.1.getAttr "listType"))) :=
  ⟨by decide,
    c5_wrapper_chain ([({ scope := "list", attributeName := "listStart", markerElement := none } : DowncastStrategy)])
      ([({ name := "paragraph", attrs := [("listItemId", .nat 1), ("listIndent", .nat 0), ("listType", .str "bulleted")] } : Block)])
      (({ name := "paragraph", attrs := [("listItemId", .nat 2), ("listIndent", .nat 1), ("listType", .str "numbered"), ("listStart", .nat 3)] } : Block))
      (by decide)⟩

/-- A recorded head stays recorded. -/
theorem mem_addHead_mono (hs : List Nat) (o : Option Nat) (x : Nat)
    (hx : x ∈ hs) : x ∈ addHead hs o := by
  cases o with
  | none => exact hx
  | some h =>
    simp only [addHead]
    split_ifs with hmem
    · exact hx
    · exact List.mem_append.mpr (Or.inl hx)

/-- Adding a head records it. -/
theorem mem_addHead_self (hs : List Nat) (h : Nat) :
    h ∈ addHead hs (some h) := by
  simp only [addHead]
  split_ifs with hmem
  · exact hmem
  · exact List.mem_append.mpr (Or.inr (by simp))

/-- C3: for a differ entry changing a recognized list attribute the
scheduler records the head of the affected item; when the new value is
absent it also records the position just after the block as a candidate
head, and the block itself joins the direct refresh list exactly when the
bogus-versus-real reclassification check requests a refresh; when the new
value is present the block joins the changed set instead.  In particular,
removing the attribute from a block whose successor is still a list block
records that successor as a candidate head, so the following block is
re-evaluated by the collect walk. -/
theorem c3_attribute_entry (ctx : SchedCtx) (acc : SchedAcc) (p : Nat)
    (key : String) (oldv newv : Option AttrValue)
    (hkey : ctx.attributeNames.contains key = true) :
    ((processEntry ctx acc (.attribute p key oldv newv)).heads =
      if newv.isNone then
        addHead (addHead acc.heads (findListHead ctx.doc p))
          (findListHead ctx.doc (p + 1))
      else addHead acc.heads (findListHead ctx.doc p)) ∧
    (newv.isNone = true →
      (processEntry ctx acc (.attribute p key oldv newv)).itemsToRefresh =
        (if doesItemBlockRequiresRefresh ctx p none then
          acc.itemsToRefresh ++ [p] else acc.itemsToRefresh) ∧
      (processEntry ctx acc (.attribute p key oldv newv)).changedItems =
        acc.changedItems) ∧
    (newv.isNone = false →
      (processEntry ctx acc (.attribute p key oldv newv)).changedItems =
        acc.changedItems ++ [p] ∧
      (processEntry ctx acc (.attribute p key oldv newv)).itemsToRefresh =
        acc.itemsToRefresh) ∧
    (newv.isNone = true →
      isListItemBlock (getBlock ctx.doc p) = false →
      isListItemBlock (getBlock ctx.doc (p + 1)) = true →
      (p + 1) ∈ (processEntry ctx acc (.attribute p key oldv newv)).heads) := by
  have hred : processEntry ctx acc (.attribute p key oldv newv) =
      (if newv.isNone then
        (if doesItemBlockRequiresRefresh ctx p none then
          { acc with
            heads := addHead (addHead acc.heads (findListHead ctx.doc p))
              (findListHead ctx.doc (p + 1))
            itemsToRefresh := acc.itemsToRefresh ++ [p] }
         else
          { acc with
            heads := addHead (addHead acc.heads (findListHead ctx.doc p))
              (findListHead ctx.doc (p + 1)) })
       else
        { acc with heads := addHead acc.heads (findListHead ctx.doc p)
                   changedItems := acc.changedItems ++ [p] }) := by
    simp only [processEntry, hkey]
    cases hn : newv.isNone
    · simp
    · cases hb : doesItemBlockRequiresRefresh ctx p none <;> simp
  rw [hred]
  cases hn : newv.isNone
  · refine ⟨by simp, ?_, ?_, ?_⟩
    · intro h
      simp at h
    · intro _
      exact ⟨by simp, by simp⟩
    · intro h
      simp at h
  · refine ⟨?_, ?_, ?_, ?_⟩
    · cases hb : doesItemBlockRequiresRefresh ctx p none <;> simp
    · intro _
      cases hb : doesItemBlockRequiresRefresh ctx p none <;> simp
    · intro h
      simp at h
    · intro _ hnl hl
      have hfind : findListHead ctx.doc (p + 1) = some (p + 1) := by
        unfold findListHead
        rw [if_neg (by simp [hnl]), if_pos hl]
      cases hb : doesItemBlockRequiresRefresh ctx p none <;>
        simp [hfind, mem_addHead_self]

/-- Witness for C3 at the mid-list scenario: the listItemId attribute was
removed from the middle block of a three-block list, so the head of the run
before it and the still-list successor are both recorded. -/
theorem c3_attribute_entry_witness :
    (({ attributeNames := ["listItemId", "listIndent", "listType"], doc := [({ name := "paragraph", attrs := [("listItemId", .nat 1), ("listIndent", .nat 0), ("listType", .str "bulleted")] } : Block), ({ name := "paragraph", attrs := [("listIndent", .nat 0), ("listType", .str "bulleted")] } : Block), ({ name := "paragraph", attrs := [("listItemId", .nat 3), ("listIndent", .nat 0), ("listType", .str "bulleted")] } : Block)], viewOf := fun _ => none, checkElement := fun _ => false, checkAttributes := fun _ _ _ => false } : SchedCtx)).attributeNames.contains "listItemId" = true ∧
    (
    ((processEntry ({ attributeNames := ["listItemId", "listIndent", "listType"], doc := [({ name := "paragraph", attrs := [("listItemId", .nat 1), ("listIndent", .nat 0), ("listType", .str "bulleted")] } : Block), ({ name := "paragraph", attrs := [("listIndent", .nat 0), ("listType", .str "bulleted")] } : Block), ({ name := "paragraph", attrs := [("listItemId", .nat 3), ("listIndent", .nat 0), ("listType", .str "bulleted")] } : Block)], viewOf := fun _ => none, checkElement := fun _ => false, checkAttributes := fun _ _ _ => false } : SchedCtx) ({ itemsToRefresh := [], heads := [], changedItems := [] } : SchedAcc) (.attribute 1 "listItemId" (some (AttrValue.nat 2)) (none : Option AttrValue))).heads =
      if (none : Option AttrValue).isNone then
        addHead (addHead ({ itemsToRefresh := [], heads := [], changedItems := [] } : SchedAcc).heads (findListHead ({ attributeNames := ["listItemId", "listIndent", "listType"], doc := [({ name := "paragraph", attrs := [("listItemId", .nat 1), ("listIndent", .nat 0), ("listType", .str "bulleted")] } : Block), ({ name := "paragraph", attrs := [("listIndent", .nat 0), ("listType", .str "bulleted")] } : Block), ({ name := "paragraph", attrs := [("listItemId", .nat 3), ("listIndent", .nat 0), ("listType", .str "bulleted")] } : Block)], viewOf := fun _ => none, checkElement := fun _ => false, checkAttributes := fun _ _ _ => false } : SchedCtx).doc 1))
          (findListHead ({ attributeNames := ["listItemId", "listIndent", "listType"], doc := [({ name := "paragraph", attrs := [("listItemId", .nat 1), ("listIndent", .nat 0), ("listType", .str "bulleted")] } : Block), ({ name := "paragraph", attrs := [("listIndent", .nat 0), ("listType", .str "bulleted")] } : Block), ({ name := "paragraph", attrs := [("listItemId", .nat 3), ("listIndent", .nat 0), ("listType", .str "bulleted")] } : Block)], viewOf := fun _ => none, checkElement := fun _ => false, checkAttributes := fun _ _ _ => false } : SchedCtx).doc (1 + 1))
      else addHead ({ itemsToRefresh := [], heads := [], changedItems := [] } : SchedAcc).heads (findListHead ({ attributeNames := ["listItemId", "listIndent", "listType"], doc := [({ name := "paragraph", attrs := [("listItemId", .nat 1), ("listIndent", .nat 0), ("listType", .str "bulleted")] } : Block), ({ name := "paragraph", attrs := [("listIndent", .nat 0), ("listType", .str "bulleted")] } : Block), ({ name := "paragraph", attrs := [("listItemId", .nat 3), ("listIndent", .nat 0), ("listType", .str "bulleted")] } : Block)], viewOf := fun _ => none, checkElement := fun _ => false, checkAttributes := fun _ _ _ => false } : SchedCtx).doc 1)) ∧
    ((none : Option AttrValue).isNone = true →
      (processEntry ({ attributeNames := ["listItemId", "listIndent", "listType"], doc := [({ name := "paragraph", attrs := [("listItemId", .nat 1), ("listIndent", .nat 0), ("listType", .str "bulleted")] } : Block), ({ name := "paragraph", attrs := [("listIndent", .nat 0), ("listType", .str "bulleted")] } : Block), ({ name := "paragraph", attrs := [("listItemId", .nat 3), ("listIndent", .nat 0), ("listType", .str "bulleted")] } : Block)], viewOf := fun _ => none, checkElement := fun _ => false, checkAttributes := fun _ _ _ => false } : SchedCtx) ({ itemsToRefresh := [], heads := [], changedItems := [] } : SchedAcc) (.attribute 1 "listItemId" (some (AttrValue.nat 2)) (none : Option AttrValue))).itemsToRefresh =
        (if doesItemBlockRequiresRefresh ({ attributeNames := ["listItemId", "listIndent", "listType"], doc := [({ name := "paragraph", attrs := [("listItemId", .nat 1), ("listIndent", .nat 0), ("listType", .str "bulleted")] } : Block), ({ name := "paragraph", attrs := [("listIndent", .nat 0), ("listType", .str "bulleted")] } : Block), ({ name := "paragraph", attrs := [("listItemId", .nat 3), ("listIndent", .nat 0), ("listType", .str "bulleted")] } : Block)], viewOf := fun _ => none, checkElement := fun _ => false, checkAttributes := fun _ _ _ => false } : SchedCtx) 1 none then
          ({ itemsToRefresh := [], heads := [], changedItems := [] } : SchedAcc).itemsToRefresh ++ [1] else ({ itemsToRefresh := [], heads := [], changedItems := [] } : SchedAcc).itemsToRefresh) ∧
      (processEntry ({ attributeNames := ["listItemId", "listIndent", "listType"], doc := [({ name := "paragraph", attrs := [("listItemId", .nat 1), ("listIndent", .nat 0), ("listType", .str "bulleted")] } : Block), ({ name := "paragraph", attrs := [("listIndent", .nat 0), ("listType", .str "bulleted")] } : Block), ({ name := "paragraph", attrs := [("listItemId", .nat 3), ("listIndent", .nat 0), ("listType", .str "bulleted")] } : Block)], viewOf := fun _ => none, checkElement := fun _ => false, checkAttributes := fun _ _ _ => false } : SchedCtx) ({ itemsToRefresh := [], heads := [], changedItems := [] } : SchedAcc) (.attribute 1 "listItemId" (some (AttrValue.nat 2)) (none : Option AttrValue))).changedItems =
        ({ itemsToRefresh := [], heads := [], changedItems := [] } : SchedAcc).changedItems) ∧
    ((none : Option AttrValue).isNone = false →
      (processEntry ({ attributeNames := ["listItemId", "listIndent", "listType"], doc := [({ name := "paragraph", attrs := [("listItemId", .nat 1), ("listIndent", .nat 0), ("listType", .str "bulleted")] } : Block), ({ name := "paragraph", attrs := [("listIndent", .nat 0), ("listType", .str "bulleted")] } : Block), ({ name := "paragraph", attrs := [("listItemId", .nat 3), ("listIndent", .nat 0), ("listType", .str "bulleted")] } : Block)], viewOf := fun _ => none, checkElement := fun _ => false, checkAttributes := fun _ _ _ => false } : SchedCtx) ({ itemsToRefresh := [], heads := [], changedItems := [] } : SchedAcc) (.attribute 1 "listItemId" (some (AttrValue.nat 2)) (none : Option AttrValue))).changedItems =
        ({ itemsToRefresh := [], heads := [], changedItems := [] } : SchedAcc).changedItems ++ [1] ∧
      (processEntry ({ attributeNames := ["listItemId", "listIndent", "listType"], doc := [({ name := "paragraph", attrs := [("listItemId", .nat 1), ("listIndent", .nat 0), ("listType", .str "bulleted")] } : Block), ({ name := "paragraph", attrs := [("listIndent", .nat 0), ("listType", .str "bulleted")] } : Block), ({ name := "paragraph", attrs := [("listItemId", .nat 3), ("listIndent", .nat 0), ("listType", .str "bulleted")] } : Block)], viewOf := fun _ => none, checkElement := fun _ => false, checkAttributes := fun _ _ _ => false } : SchedCtx) ({ itemsToRefresh := [], heads := [], changedItems := [] } : SchedAcc) (.attribute 1 "listItemId" (some (AttrValue.nat 2)) (none : Option AttrValue))).itemsToRefresh =
        ({ itemsToRefresh := [], heads := [], changedItems := [] } : SchedAcc).itemsToRefresh) ∧
    ((none : Option AttrValue).isNone = true →
      isListItemBlock (getBlock ({ attributeNames := ["listItemId", "listIndent", "listType"], doc := [({ name := "paragraph", attrs := [("listItemId", .nat 1), ("listIndent", .nat 0), ("listType", .str "bulleted")] } : Block), ({ name := "paragraph", attrs := [("listIndent", .nat 0), ("listType", .str "bulleted")] } : Block), ({ name := "paragraph", attrs := [("listItemId", .nat 3), ("listIndent", .nat 0), ("listType", .str "bulleted")] } : Block)], viewOf := fun _ => none, checkElement := fun _ => false, checkAttributes := fun _ _ _ => false } : SchedCtx).doc 1) = false →
      isListItemBlock (getBlock ({ attributeNames := ["listItemId", "listIndent", "listType"], doc := [({ name := "paragraph", attrs := [("listItemId", .nat 1), ("listIndent", .nat 0), ("listType", .str "bulleted")] } : Block), ({ name := "paragraph", attrs := [("listIndent", .nat 0), ("listType", .str "bulleted")] } : Block), ({ name := "paragraph", attrs := [("listItemId", .nat 3), ("listIndent", .nat 0), ("listType", .str "bulleted")] } : Block)], viewOf := fun _ => none, checkElement := fun _ => false, checkAttributes := fun _ _ _ => false } : SchedCtx).doc (1 + 1)) = true →
      (1 + 1) ∈ (processEntry ({ attributeNames := ["listItemId", "listIndent", "listType"], doc := [({ name := "paragraph", attrs := [("listItemId", .nat 1), ("listIndent", .nat 0), ("listType", .str "bulleted")] } : Block), ({ name := "paragraph", attrs := [("listIndent", .nat 0), ("listType", .str "bulleted")] } : Block), ({ name := "paragraph", attrs := [("listItemId", .nat 3), ("listIndent", .nat 0), ("listType", .str "bulleted")] } : Block)], viewOf := fun _ => none, checkElement := fun _ => false, checkAttributes := fun _ _ _ => false } : SchedCtx) ({ itemsToRefresh := [], heads := [], changedItems := [] } : SchedAcc) (.attribute 1 "listItemId" (some (AttrValue.nat 2)) (none : Option AttrValue))).heads)) :=
  ⟨by decide,
    c3_attribute_entry ({ attributeNames := ["listItemId", "listIndent", "listType"], doc := [({ name := "paragraph", attrs := [("listItemId", .nat 1), ("listIndent", .nat 0), ("listType", .str "bulleted")] } : Block), ({ name := "paragraph", attrs := [("listIndent", .nat 0), ("listType", .str "bulleted")] } : Block), ({ name := "paragraph", attrs := [("listItemId", .nat 3), ("listIndent", .nat 0), ("listType", .str "bulleted")] } : Block)], viewOf := fun _ => none, checkElement := fun _ => false, checkAttributes := fun _ _ _ => false } : SchedCtx)
      ({ itemsToRefresh := [], heads := [], changedItems := [] } : SchedAcc)
      1 "listItemId" (some (AttrValue.nat 2)) none (by decide)⟩

/-- Witness for C10 at a concrete input: an unrecognized triggering key on
a block with a consumable listType attribute leaves everything unchanged. -/
theorem c10_downcast_frame_witness :
    (
    ((["listType"] : List String).contains "listStyle" = false →
      listItemDowncastConvert (["listType"] : List String) ([] : List DowncastStrategy) ([] : List Block) ({ name := "paragraph", attrs := [("listType", .str "bulleted")] } : Block)
        "listStyle" ((({ markers := [], wrappers := [] } : BlockView), ({ vals := [("attribute:listType", true)] } : ModelConsumable))) = ((({ markers := [], wrappers := [] } : BlockView), ({ vals := [("attribute:listType", true)] } : ModelConsumable)))) ∧
    ((attributesConsumer (["listType"] : List String) ({ name := "paragraph", attrs := [("listType", .str "bulleted")] } : Block) ((({ markers := [], wrappers := [] } : BlockView), ({ vals := [("attribute:listType", true)] } : ModelConsumable))).2).1 = false →
      listItemDowncastConvert (["listType"] : List String) ([] : List DowncastStrategy) ([] : List Block) ({ name := "paragraph", attrs := [("listType", .str "bulleted")] } : Block)
        "listStyle" ((({ markers := [], wrappers := [] } : BlockView), ({ vals := [("attribute:listType", true)] } : ModelConsumable))) = ((({ markers := [], wrappers := [] } : BlockView), ({ vals := [("attribute:listType", true)] } : ModelConsumable)))) ∧
    ((attributesConsumer (["listType"] : List String) ({ name := "paragraph", attrs := [("listType", .str "bulleted")] } : Block) ((({ markers := [], wrappers := [] } : BlockView), ({ vals := [("attribute:listType", true)] } : ModelConsumable))).2).1 = true ↔
      ∀ e ∈ consumerEvents (["listType"] : List String) ({ name := "paragraph", attrs := [("listType", .str "bulleted")] } : Block),
        ¬ (((({ markers := [], wrappers := [] } : BlockView), ({ vals := [("attribute:listType", true)] } : ModelConsumable))).2.test e = some false)) ∧
    ((attributesConsumer (["listType"] : List String) ({ name := "paragraph", attrs := [("listType", .str "bulleted")] } : Block) ((({ markers := [], wrappers := [] } : BlockView), ({ vals := [("attribute:listType", true)] } : ModelConsumable))).2).1 = false →
      (attributesConsumer (["listType"] : List String) ({ name := "paragraph", attrs := [("listType", .str "bulleted")] } : Block) ((({ markers := [], wrappers := [] } : BlockView), ({ vals := [("attribute:listType", true)] } : ModelConsumable))).2).2 = ((({ markers := [], wrappers := [] } : BlockView), ({ vals := [("attribute:listType", true)] } : ModelConsumable))).2)) :=
  c10_downcast_frame (["listType"] : List String) ([] : List DowncastStrategy) ([] : List Block)
    ({ name := "paragraph", attrs := [("listType", .str "bulleted")] } : Block) "listStyle"
    (({ markers := [], wrappers := [] } : BlockView), ({ vals := [("attribute:listType", true)] } : ModelConsumable))

/-- A list block lies inside the document. -/
theorem lt_length_of_isList (doc : List Block) (i : Nat)
    (h : isListItemBlock (getBlock doc i) = true) : i < doc.length := by
  by_contra hc
  have hd : getBlock doc i = default := by
    unfold getBlock
    exact List.getD_eq_default _ _ (by omega)
  rw [hd] at h
  exact Bool.noConfusion h

/-- The run never extends past the end of the document. -/
theorem listRunLen_le (doc : List Block) : ∀ i : Nat,
    listRunLen doc i ≤ doc.length - i := by
  have H : ∀ n i, doc.length - i ≤ n →
      listRunLen doc i ≤ doc.length - i := by
    intro n
    induction n with
    | zero =>
      intro i h
      rw [listRunLen_unfold]
      by_cases hi : i < doc.length
      · exact absurd hi (by omega)
      · rw [if_neg hi]
        omega
    | succ n ih =>
      intro i h
      rw [listRunLen_unfold]
      by_cases hi : i < doc.length
      · rw [if_pos hi]
        by_cases hl : isListItemBlock (getBlock doc i) = true
        · rw [if_pos hl]
          have := ih (i + 1) (by omega)
          omega
        · rw [if_neg hl]
          omega
      · rw [if_neg hi]
        omega
  intro i
  exact H (doc.length - i) i (Nat.le_refl _)

/-- Every block of a run is a list block. -/
theorem listRunLen_mem (doc : List Block) : ∀ i k : Nat,
    k < listRunLen doc i → isListItemBlock (getBlock doc (i + k)) = true := by
  have H : ∀ n i, doc.length - i ≤ n → ∀ k, k < listRunLen doc i →
      isListItemBlock (getBlock doc (i + k)) = true := by
    intro n
    induction n with
    | zero =>
      intro i h k hk
      rw [listRunLen_unfold] at hk
      by_cases hi : i < doc.length
      · exact absurd hi (by omega)
      · rw [if_neg hi] at hk
        omega
    | succ n ih =>
      intro i h k hk
      rw [listRunLen_unfold] at hk
      by_cases hi : i < doc.length
      · rw [if_pos hi] at hk
        by_cases hl : isListItemBlock (getBlock doc i) = true
        · rw [if_pos hl] at hk
          cases k with
          | zero => simpa using hl
          | succ k =>
            have := ih (i + 1) (by omega) k (by omega)
            simpa [Nat.add_assoc, Nat.add_comm 1 k] using this
        · rw [if_neg hl] at hk
          omega
      · rw [if_neg hi] at hk
        omega
  intro i k hk
  exact H (doc.length - i) i (Nat.le_refl _) k hk

/-- The run is maximal: any contiguous stretch of list blocks within the
document starting at the same index is no longer than the run. -/
theorem listRunLen_max (doc : List Block) : ∀ n i : Nat,
    (∀ k, k < n → isListItemBlock (getBlock doc (i + k)) = true) →
    i + n ≤ doc.length → n ≤ listRunLen doc i := by
  intro n
  induction n with
  | zero => intro i _ _; omega
  | succ n ih =>
    intro i hall hlen
    rw [listRunLen_unfold]
    have hi : i < doc.length := by omega
    rw [if_pos hi]
    have h0 : isListItemBlock (getBlock doc i) = true := by
      simpa using hall 0 (by omega)
    rw [if_pos h0]
    have := ih (i + 1)
      (fun k hk => by
        have := hall (k + 1) (by omega)
        simpa [Nat.add_assoc, Nat.add_comm 1 k] using this)
      (by omega)
    omega

/-- The same-identifier stretch never extends past the document. -/
theorem sameIdFwdLen_le (doc : List Block) (v : AttrValue) : ∀ i : Nat,
    sameIdFwdLen doc i v ≤ doc.length - i := by
  have H : ∀ n i, doc.length - i ≤ n →
      sameIdFwdLen doc i v ≤ doc.length - i := by
    intro n
    induction n with
    | zero =>
      intro i h
      rw [sameIdFwdLen_unfold]
      by_cases hi : i < doc.length
      · exact absurd hi (by omega)
      · rw [if_neg hi]
        omega
    | succ n ih =>
      intro i h
      rw [sameIdFwdLen_unfold]
      by_cases hi : i < doc.length
      · rw [if_pos hi]
        by_cases hl : (getBlock doc i).getAttr "listItemId" = some v
        · rw [if_pos hl]
          have := ih (i + 1) (by omega)
          omega
        · rw [if_neg hl]
          omega
      · rw [if_neg hi]
        omega
  intro i
  exact H (doc.length - i) i (Nat.le_refl _)

/-- Every block of the same-identifier stretch carries the identifier. -/
theorem sameIdFwdLen_mem (doc : List Block) (v : AttrValue) : ∀ i k : Nat,
    k < sameIdFwdLen doc i v →
    (getBlock doc (i + k)).getAttr "listItemId" = some v := by
  have H : ∀ n i, doc.length - i ≤ n → ∀ k, k < sameIdFwdLen doc i v →
      (getBlock doc (i + k)).getAttr "listItemId" = some v := by
    intro n
    induction n with
    | zero =>
      intro i h k hk
      rw [sameIdFwdLen_unfold] at hk
      by_cases hi : i < doc.length
      · exact absurd hi (by omega)
      · rw [if_neg hi] at hk
        omega
    | succ n ih =>
      intro i h k hk
      rw [sameIdFwdLen_unfold] at hk
      by_cases hi : i < doc.length
      · rw [if_pos hi] at hk
        by_cases hl : (getBlock doc i).getAttr "listItemId" = some v
        · rw [if_pos hl] at hk
          cases k with
          | zero => simpa using hl
          | succ k =>
            have := ih (i + 1) (by omega) k (by omega)
            simpa [Nat.add_assoc, Nat.add_comm 1 k] using this
        · rw [if_neg hl] at hk
          omega
      · rw [if_neg hi] at hk
        omega
  intro i k hk
  exact H (doc.length - i) i (Nat.le_refl _) k hk

/-- The same-identifier stretch starts with the block itself when the block
carries the identifier. -/
theorem sameIdFwdLen_pos (doc : List Block) (v : AttrValue) (i : Nat)
    (hi : i < doc.length)
    (hv : (getBlock doc i).getAttr "listItemId" = some v) :
    0 < sameIdFwdLen doc i v := by
  rw [sameIdFwdLen_unfold, if_pos hi, if_pos hv]
  omega


/-- Appending adjacent intervals. -/
theorem range'_append_adjacent (s m n : Nat) :
    List.range' s m ++ List.range' (s + m) n = List.range' s (m + n) := by
  have h := List.range'_append s m n 1
  simp only [Nat.one_mul, Nat.mul_one] at h
  rw [Nat.add_comm m n]
  exact h

/-- The forward item blocks of an index form the contiguous interval of the
same-identifier stretch. -/
theorem getListItemBlocksFwd_eq_range (doc : List Block) (i : Nat) :
    getListItemBlocksFwd doc i = List.range' i (fwdLenOf doc i) := by
  unfold getListItemBlocksFwd fwdLenOf
  cases h : (getBlock doc i).getAttr "listItemId" with
  | none => simp [h, List.range'_one]
  | some v => simp [h, List.range'_eq_map_range]

/-- The forward item blocks are at least the block itself. -/
theorem fwdLenOf_pos (doc : List Block) (i : Nat) (hi : i < doc.length) :
    1 ≤ fwdLenOf doc i := by
  unfold fwdLenOf
  cases h : (getBlock doc i).getAttr "listItemId" with
  | none => simp
  | some v =>
    simp only
    exact sameIdFwdLen_pos doc v i hi h

/-- The forward item blocks stay inside the document. -/
theorem fwdLenOf_le (doc : List Block) (i : Nat) (hi : i < doc.length) :
    i + fwdLenOf doc i ≤ doc.length := by
  unfold fwdLenOf
  cases h : (getBlock doc i).getAttr "listItemId" with
  | none =>
    simp only
    omega
  | some v =>
    simp only
    have := sameIdFwdLen_le doc v i
    omega

/-- The forward item blocks of a list block are list blocks. -/
theorem fwdLenOf_isList (doc : List Block) (i : Nat)
    (hl : isListItemBlock (getBlock doc i) = true) :
    ∀ k, k < fwdLenOf doc i →
      isListItemBlock (getBlock doc (i + k)) = true := by
  intro k hk
  cases h : (getBlock doc i).getAttr "listItemId" with
  | none =>
    have hk2 : k < 1 := by
      have : fwdLenOf doc i = 1 := by unfold fwdLenOf; rw [h]
      omega
    have : k = 0 := by omega
    subst this
    simpa using hl
  | some v =>
    have hk2 : k < sameIdFwdLen doc i v := by
      have : fwdLenOf doc i = sameIdFwdLen doc i v := by unfold fwdLenOf; rw [h]
      omega
    have hmem := sameIdFwdLen_mem doc v i k hk2
    unfold isListItemBlock Block.hasAttr
    rw [hmem]
    rfl

/-- The backward stretch of list blocks never reaches below zero. -/
theorem backListLen_le (doc : List Block) : ∀ j : Nat,
    backListLen doc j ≤ j := by
  intro j
  induction j with
  | zero => simp [backListLen]
  | succ j ih =>
    rw [backListLen]
    split_ifs
    · omega
    · omega

/-- Every block between the run head and the reference is a list block. -/
theorem backListLen_mem (doc : List Block) : ∀ j k : Nat,
    j - backListLen doc j ≤ k → k < j →
    isListItemBlock (getBlock doc k) = true := by
  intro j
  induction j with
  | zero => intro k h1 h2; omega
  | succ j ih =>
    intro k h1 h2
    rw [backListLen] at h1
    by_cases hl : isListItemBlock (getBlock doc j) = true
    · rw [if_pos hl] at h1
      by_cases hk : k = j
      · subst hk; exact hl
      · have hb := backListLen_le doc j
        exact ih k (by omega) (by omega)
    · rw [if_neg hl] at h1
      omega

/-- The block before the head of a run is not a list block. -/
theorem backListLen_head_prev (doc : List Block) : ∀ j : Nat,
    0 < j - backListLen doc j →
    isListItemBlock (getBlock doc (j - backListLen doc j - 1)) = false := by
  intro j
  induction j with
  | zero => intro h; omega
  | succ j ih =>
    intro h
    rw [backListLen]
    rw [backListLen] at h
    by_cases hl : isListItemBlock (getBlock doc j) = true
    · rw [if_pos hl]
      rw [if_pos hl] at h
      have hb := backListLen_le doc j
      have heq : j + 1 - (backListLen doc j + 1) = j - backListLen doc j := by
        omega
      rw [heq]
      rw [heq] at h
      exact ih h
    · rw [if_neg hl]
      rw [if_neg hl] at h
      simp only [Nat.sub_zero]
      have heq : j + 1 - 1 = j := by omega
      rw [heq]
      simpa using hl

/-- The head of the run of a list block is a list block. -/
theorem headIndex_isList (doc : List Block) (j : Nat)
    (hl : isListItemBlock (getBlock doc j) = true) :
    isListItemBlock (getBlock doc (headIndex doc j)) = true := by
  unfold headIndex
  by_cases hb : backListLen doc j = 0
  · rw [hb]
    simpa using hl
  · have hle := backListLen_le doc j
    exact backListLen_mem doc j (j - backListLen doc j)
      (Nat.le_refl _) (by omega)

/-- The head obtained from a list block is a run head. -/
theorem headIndex_isRunHead (doc : List Block) (j : Nat)
    (hl : isListItemBlock (getBlock doc j) = true) :
    isRunHead doc (headIndex doc j) := by
  refine ⟨headIndex_isList doc j hl, ?_⟩
  by_cases h0 : headIndex doc j = 0
  · exact Or.inl h0
  · right
    unfold headIndex at h0 ⊢
    exact backListLen_head_prev doc j (by omega)

/-- A recorded candidate head is a run head. -/
theorem findListHead_isRunHead (doc : List Block) (p h : Nat)
    (hf : findListHead doc p = some h) : isRunHead doc h := by
  unfold findListHead at hf
  split_ifs at hf with h1 h2
  · obtain ⟨hp, hl⟩ := h1
    have := headIndex_isRunHead doc (p - 1) hl
    rwa [Option.some.inj hf] at this
  · refine ⟨?_, ?_⟩
    · rw [← Option.some.inj hf]
      exact h2
    · rw [← Option.some.inj hf]
      by_cases hp : p = 0
      · exact Or.inl hp
      · right
        cases hq : isListItemBlock (getBlock doc (p - 1))
        · rfl
        · exact absurd ⟨by omega, hq⟩ h1

/-- A collect step at an already visited index does nothing. -/
theorem collectStep_of_mem (ctx : SchedCtx) (changed : List Nat)
    (head : Nat) (st : CollectState) (idx : Nat) (h : idx ∈ st.visited) :
    collectStep ctx changed head st idx = st := by
  unfold collectStep
  rw [if_pos h]

/-- A collect step at a fresh index visits exactly the forward item blocks
of the index. -/
theorem collectStep_visited_of_not_mem (ctx : SchedCtx) (changed : List Nat)
    (head : Nat) (st : CollectState) (idx : Nat) (h : idx ∉ st.visited) :
    (collectStep ctx changed head st idx).visited
      = st.visited ++ getListItemBlocksFwd ctx.doc idx := by
  unfold collectStep
  rw [if_neg h]

/-- The collect walk invariant: starting from a contiguous visited interval
of the run with the frontier at or past the next index, the visited blocks
stay a contiguous interval of the run beginning at the head. -/
theorem collect_go (ctx : SchedCtx) (changed : List Nat) (head : Nat) :
    ∀ (n j f : Nat) (st : CollectState),
    listRunLen ctx.doc head - j ≤ n →
    j ≤ f → f ≤ listRunLen ctx.doc head →
    st.visited = List.range' head f →
    ∃ F, f ≤ F ∧ F ≤ listRunLen ctx.doc head ∧
      ((List.range' (head + j) (listRunLen ctx.doc head - j)).foldl
        (collectStep ctx changed head) st).visited = List.range' head F := by
  intro n
  induction n with
  | zero =>
    intro j f st hn hjf hfL hv
    have h0 : listRunLen ctx.doc head - j = 0 := by omega
    rw [h0]
    exact ⟨f, Nat.le_refl _, hfL, by simpa using hv⟩
  | succ n ih =>
    intro j f st hn hjf hfL hv
    by_cases hj : listRunLen ctx.doc head - j = 0
    · rw [hj]
      exact ⟨f, Nat.le_refl _, hfL, by simpa using hv⟩
    · have hjL : j < listRunLen ctx.doc head := by omega
      have hsplit : listRunLen ctx.doc head - j
          = (listRunLen ctx.doc head - (j + 1)) + 1 := by omega
      rw [hsplit, List.range'_succ]
      simp only [List.foldl_cons]
      by_cases hcase : j < f
      · have hmem : head + j ∈ st.visited := by
          rw [hv]
          rw [List.mem_range'_1]
          omega
        rw [collectStep_of_mem ctx changed head st (head + j) hmem]
        have := ih (j + 1) f st (by omega) (by omega) hfL hv
        simpa [Nat.add_assoc] using this
      · have hjf2 : j = f := by omega
        subst hjf2
        have hnot : head + j ∉ st.visited := by
          rw [hv, List.mem_range'_1]
          omega
        have hstep := collectStep_visited_of_not_mem ctx changed head st
          (head + j) hnot
        have hlj : isListItemBlock (getBlock ctx.doc (head + j)) = true :=
          listRunLen_mem ctx.doc head j hjL
        have hlt : head + j < ctx.doc.length :=
          lt_length_of_isList ctx.doc (head + j) hlj
        set m := fwdLenOf ctx.doc (head + j) with hm
        have hm1 : 1 ≤ m := fwdLenOf_pos ctx.doc (head + j) hlt
        have hmle : head + j + m ≤ ctx.doc.length :=
          fwdLenOf_le ctx.doc (head + j) hlt
        have hall : ∀ k, k < j + m →
            isListItemBlock (getBlock ctx.doc (head + k)) = true := by
          intro k hk
          by_cases hkj : k < j
          · exact listRunLen_mem ctx.doc head k (by omega)
          · have : head + k = (head + j) + (k - j) := by omega
            rw [this]
            exact fwdLenOf_isList ctx.doc (head + j) hlj (k - j) (by omega)
        have hjm : j + m ≤ listRunLen ctx.doc head :=
          listRunLen_max ctx.doc (j + m) head hall (by omega)
        have hv2 : (collectStep ctx changed head st (head + j)).visited
            = List.range' head (j + m) := by
          rw [hstep, hv, getListItemBlocksFwd_eq_range, ← hm,
            range'_append_adjacent]
        have := ih (j + 1) (j + m) (collectStep ctx changed head st (head + j))
          (by omega) (by omega) hjm hv2
        obtain ⟨F, hF1, hF2, hF3⟩ := this
        refine ⟨F, by omega, hF2, ?_⟩
        simpa [Nat.add_assoc] using hF3

/-- The blocks visited by one collect walk form a contiguous interval of
the run of its head. -/
theorem collectVisited_spec (ctx : SchedCtx) (changed : List Nat)
    (head : Nat) :
    ∃ F, F ≤ listRunLen ctx.doc head ∧
      collectVisited ctx head changed = List.range' head F := by
  unfold collectVisited listRun
  have hrw : (List.range (listRunLen ctx.doc head)).map (fun k => head + k)
      = List.range' (head + 0) (listRunLen ctx.doc head - 0) := by
    simp [List.range'_eq_map_range]
  rw [hrw]
  obtain ⟨F, _, h2, h3⟩ := collect_go ctx changed head
    (listRunLen ctx.doc head) 0 0 { visited := [], stack := [], out := [] }
    (by omega) (by omega) (by omega) rfl
  exact ⟨F, h2, h3⟩

/-- Recording a run head keeps the recorded heads distinct run heads. -/
theorem addHead_inv (doc : List Block) (hs : List Nat) (o : Option Nat)
    (hinv : hs.Nodup ∧ ∀ h ∈ hs, isRunHead doc h)
    (ho : ∀ h, o = some h → isRunHead doc h) :
    (addHead hs o).Nodup ∧ ∀ h ∈ addHead hs o, isRunHead doc h := by
  cases o with
  | none => exact hinv
  | some h =>
    simp only [addHead]
    split_ifs with hmem
    · exact hinv
    · constructor
      · refine List.Nodup.append hinv.1 (by simp) ?_
        intro a ha hb
        have : a = h := by simpa using hb
        subst this
        exact hmem ha
      · intro x hx
        rcases List.mem_append.mp hx with hx | hx
        · exact hinv.2 x hx
        · have : x = h := by simpa using hx
          subst this
          exact ho x rfl

/-- Every differ entry preserves the recorded heads being distinct run
heads. -/
theorem processEntry_heads_inv (ctx : SchedCtx) (acc : SchedAcc)
    (e : ChangeEntry)
    (hinv : acc.heads.Nodup ∧ ∀ h ∈ acc.heads, isRunHead ctx.doc h) :
    (processEntry ctx acc e).heads.Nodup ∧
      ∀ h ∈ (processEntry ctx acc e).heads, isRunHead ctx.doc h := by
  cases e with
  | insert position ename length attributes =>
    simp only [processEntry]
    split_ifs with hA hB
    · exact addHead_inv ctx.doc _ _
        (addHead_inv ctx.doc _ _ hinv
          (fun h hh => findListHead_isRunHead ctx.doc _ h hh))
        (fun h hh => findListHead_isRunHead ctx.doc _ h hh)
    · exact addHead_inv ctx.doc _ _ hinv
        (fun h hh => findListHead_isRunHead ctx.doc _ h hh)
    · exact hinv
  | remove position ename attributes =>
    simp only [processEntry]
    split_ifs with hA
    · exact addHead_inv ctx.doc _ _ hinv
        (fun h hh => findListHead_isRunHead ctx.doc _ h hh)
    · exact hinv
  | _ position attributeKey oldv newv =>
    simp only [processEntry]
    split_ifs with hA hB hC hD hE
    · exact addHead_inv ctx.doc _ _
        (addHead_inv ctx.doc _ _ hinv
          (fun h hh => findListHead_isRunHead ctx.doc _ h hh))
        (fun h hh => findListHead_isRunHead ctx.doc _ h hh)
    · exact addHead_inv ctx.doc _ _
        (addHead_inv ctx.doc _ _ hinv
          (fun h hh => findListHead_isRunHead ctx.doc _ h hh))
        (fun h hh => findListHead_isRunHead ctx.doc _ h hh)
    · exact addHead_inv ctx.doc _ _ hinv
        (fun h hh => findListHead_isRunHead ctx.doc _ h hh)
    · exact hinv
    · exact hinv
    · exact hinv

/-- The heads recorded by the whole differ scan are distinct run heads. -/
theorem processEntries_heads_inv (ctx : SchedCtx)
    (changes : List ChangeEntry) :
    (processEntries ctx changes).heads.Nodup ∧
      ∀ h ∈ (processEntries ctx changes).heads, isRunHead ctx.doc h := by
  have H : ∀ (cs : List ChangeEntry) (acc : SchedAcc),
      acc.heads.Nodup → (∀ h ∈ acc.heads, isRunHead ctx.doc h) →
      (cs.foldl (processEntry ctx) acc).heads.Nodup ∧
        ∀ h ∈ (cs.foldl (processEntry ctx) acc).heads,
          isRunHead ctx.doc h := by
    intro cs
    induction cs with
    | nil => intro acc h1 h2; exact ⟨h1, h2⟩
    | cons e rest ih =>
      intro acc h1 h2
      simp only [List.foldl_cons]
      have := processEntry_heads_inv ctx acc e ⟨h1, h2⟩
      exact ih (processEntry ctx acc e) this.1 this.2
  exact H changes { itemsToRefresh := [], heads := [], changedItems := [] }
    (by simp) (by simp)

/-- Runs of distinct run heads are disjoint, ordered case. -/
theorem runs_disjoint_lt (doc : List Block) (h1 h2 x : Nat)
    (H2 : isRunHead doc h2) (hlt : h1 < h2)
    (hx1 : x ∈ List.range' h1 (listRunLen doc h1))
    (hx2 : x ∈ List.range' h2 (listRunLen doc h2)) : False := by
  rw [List.mem_range'_1] at hx1 hx2
  have hprev : isListItemBlock (getBlock doc (h1 + (h2 - 1 - h1))) = true :=
    listRunLen_mem doc h1 (h2 - 1 - h1) (by omega)
  have heq : h1 + (h2 - 1 - h1) = h2 - 1 := by omega
  rw [heq] at hprev
  rcases H2.2 with h0 | hml
  · omega
  · rw [hml] at hprev
    exact Bool.noConfusion hprev

/-- Runs of distinct run heads are disjoint. -/
theorem runs_disjoint (doc : List Block) (h1 h2 x : Nat)
    (H1 : isRunHead doc h1) (H2 : isRunHead doc h2) (hne : h1 ≠ h2)
    (hx1 : x ∈ List.range' h1 (listRunLen doc h1))
    (hx2 : x ∈ List.range' h2 (listRunLen doc h2)) : False := by
  rcases Nat.lt_or_ge h1 h2 with hlt | hge
  · exact runs_disjoint_lt doc h1 h2 x H2 hlt hx1 hx2
  · have hlt : h2 < h1 := by omega
    exact runs_disjoint_lt doc h2 h1 x H1 hlt hx2 hx1

/-- Walking distinct run heads never visits a block twice. -/
theorem visitedAll_nodup (ctx : SchedCtx) (changed : List Nat) :
    ∀ (heads : List Nat) (acc0 : List Nat),
    heads.Nodup → (∀ h ∈ heads, isRunHead ctx.doc h) →
    acc0.Nodup →
    (∀ x ∈ acc0, ∀ h ∈ heads, x ∉ List.range' h (listRunLen ctx.doc h)) →
    ((heads.foldl (fun vs h => vs ++ collectVisited ctx h changed)
      acc0)).Nodup := by
  intro heads
  induction heads with
  | nil => intro acc0 _ _ h3 _; simpa using h3
  | cons h rest ih =>
    intro acc0 hnd hrh hacc hdisj
    simp only [List.foldl_cons]
    obtain ⟨F, hF, hvv⟩ := collectVisited_spec ctx changed h
    have hsub : ∀ x, x ∈ collectVisited ctx h changed →
        x ∈ List.range' h (listRunLen ctx.doc h) := by
      intro x hx
      rw [hvv, List.mem_range'_1] at hx
      rw [List.mem_range'_1]
      omega
    have hacc1 : (acc0 ++ collectVisited ctx h changed).Nodup := by
      refine List.Nodup.append hacc ?_ ?_
      · rw [hvv]
        exact List.nodup_range' h F
      · intro a ha hb
        exact hdisj a ha h (by simp) (hsub a hb)
    refine ih (acc0 ++ collectVisited ctx h changed)
      (List.Nodup.of_cons hnd) (fun g hg => hrh g (by simp [hg])) hacc1 ?_
    intro x hx g hg
    rcases List.mem_append.mp hx with hx | hx
    · exact hdisj x hx g (by simp [hg])
    · intro hxg
      have hgh : g ≠ h := by
        intro e
        subst e
        exact (List.nodup_cons.mp hnd).1 hg
      exact runs_disjoint ctx.doc h g x (hrh h (by simp))
        (hrh g (by simp [hg])) (fun e => hgh e.symm) (hsub x hx) hxg

/-- First-occurrence deduplication yields a duplicate-free list with the
same members. -/
theorem firstDedup_spec (l : List Nat) :
    (firstDedup l).Nodup ∧ ∀ x, x ∈ firstDedup l ↔ x ∈ l := by
  have H : ∀ (l : List Nat) (acc : List Nat), acc.Nodup →
      ((l.foldl (fun acc x => if x ∈ acc then acc else acc ++ [x])
        acc).Nodup ∧
      ∀ x, x ∈ l.foldl (fun acc x => if x ∈ acc then acc else acc ++ [x])
          acc ↔ x ∈ acc ∨ x ∈ l) := by
    intro l
    induction l with
    | nil =>
      intro acc h
      exact ⟨h, fun x => by simp⟩
    | cons a rest ih =>
      intro acc h
      simp only [List.foldl_cons]
      by_cases hmem : a ∈ acc
      · rw [if_pos hmem]
        obtain ⟨ih1, ih2⟩ := ih acc h
        refine ⟨ih1, fun x => ?_⟩
        rw [ih2 x]
        constructor
        · rintro (hx | hx)
          · exact Or.inl hx
          · exact Or.inr (by simp [hx])
        · rintro (hx | hx)
          · exact Or.inl hx
          · rcases List.mem_cons.mp hx with hx | hx
            · subst hx
              exact Or.inl hmem
            · exact Or.inr hx
      · rw [if_neg hmem]
        have hnd : (acc ++ [a]).Nodup := by
          refine List.Nodup.append h (by simp) ?_
          intro b hb hba
          have : b = a := by simpa using hba
          subst this
          exact hmem hb
        obtain ⟨ih1, ih2⟩ := ih (acc ++ [a]) hnd
        refine ⟨ih1, fun x => ?_⟩
        rw [ih2 x]
        constructor
        · rintro (hx | hx)
          · rcases List.mem_append.mp hx with hx | hx
            · exact Or.inl hx
            · have : x = a := by simpa using hx
              subst this
              exact Or.inr (by simp)
          · exact Or.inr (by simp [hx])
        · rintro (hx | hx)
          · exact Or.inl (List.mem_append.mpr (Or.inl hx))
          · rcases List.mem_cons.mp hx with hx | hx
            · subst hx
              exact Or.inl (List.mem_append.mpr (Or.inr (by simp)))
            · exact Or.inr hx
  obtain ⟨h1, h2⟩ := H l [] (by simp)
  refine ⟨h1, fun x => ?_⟩
  unfold firstDedup
  rw [h2 x]
  simp

/-- C8: in one scheduler run the recorded candidate heads are distinct run
heads, no block is visited twice during the forward walks even when blocks
are reachable from several recorded heads, and full re-downcast is invoked
exactly once per distinct block of the collected refresh list, the
duplicates being removed before invocation. -/
theorem c8_visit_once_and_dedup (ctx : SchedCtx)
    (changes : List ChangeEntry) :
    (processEntries ctx changes).heads.Nodup ∧
    (∀ h ∈ (processEntries ctx changes).heads, isRunHead ctx.doc h) ∧
    ((processEntries ctx changes).heads.foldl
      (fun vs h => vs ++ collectVisited ctx h
        (processEntries ctx changes).changedItems) []).Nodup ∧
    (reconvertItemsOnDataChange ctx changes).Nodup ∧
    (∀ i, i ∈ reconvertItemsOnDataChange ctx changes ↔
      i ∈ reconvertItemsRaw ctx changes) := by
  obtain ⟨hnd, hrh⟩ := processEntries_heads_inv ctx changes
  refine ⟨hnd, hrh, ?_, ?_, ?_⟩
  · exact visitedAll_nodup ctx (processEntries ctx changes).changedItems
      (processEntries ctx changes).heads [] hnd hrh (by simp) (by simp)
  · exact (firstDedup_spec (reconvertItemsRaw ctx changes)).1
  · exact fun i => (firstDedup_spec (reconvertItemsRaw ctx changes)).2 i

/-- Setting the length of the stack yields that length. -/
theorem stackSetLength_length
    (stack : List (Option (List (String × AttrValue)))) (n : Nat) :
    (stackSetLength stack n).length = n := by
  unfold stackSetLength
  simp only [List.length_append, List.length_take, List.length_replicate]
  omega

/-- Writing a snapshot grows the stack to cover the written index. -/
theorem stackSet_length
    (stack : List (Option (List (String × AttrValue)))) (i : Nat)
    (v : List (String × AttrValue)) :
    (stackSet stack i v).length = max stack.length (i + 1) := by
  unfold stackSet
  rw [List.length_set, stackSetLength_length]

/-- With all wrapper strategies confirming, the ancestor walk confirms the
wrapping of a block whose view has at least one list wrapper more than the
expected level. -/
theorem wrappingWalk_false (ctx : SchedCtx)
    (Hca : ∀ b va sa, ctx.checkAttributes b va sa = false) :
    ∀ (ancestors : List ViewAncestor)
      (stack : List (Option (List (String × AttrValue)))) (indent : Int),
    1 ≤ listAncCount ancestors → indent < (listAncCount ancestors : Int) →
    wrappingWalk ctx ancestors stack indent = false := by
  intro ancestors
  induction ancestors with
  | nil =>
    intro stack indent h1 _
    unfold listAncCount at h1
    simp at h1
  | cons a rest ih =>
    intro stack indent h1 h2
    rw [wrappingWalk]
    by_cases hl : isListViewName a.vname = true
    · rw [if_neg (by simp [hl])]
      rw [Hca, if_neg (by simp)]
      rw [if_pos hl]
      by_cases hz : indent - 1 < 0
      · rw [if_pos hz]
      · rw [if_neg hz]
        have hcount : listAncCount (a :: rest) = listAncCount rest + 1 := by
          unfold listAncCount
          simp [List.filter_cons, hl]
        apply ih
        · omega
        · omega
    · have hcount : listAncCount (a :: rest) = listAncCount rest := by
        unfold listAncCount
        simp [List.filter_cons, Bool.of_not_eq_true hl]
      by_cases hli : isListItemViewName a.vname = true
      · rw [if_neg (by simp [hli])]
        rw [Hca, if_neg (by simp)]
        rw [if_neg (by simp [Bool.of_not_eq_true hl])]
        apply ih
        · omega
        · omega
      · rw [if_pos ⟨Bool.of_not_eq_true hl, Bool.of_not_eq_true hli⟩]
        apply ih
        · omega
        · omega

/-- Under the same-item same-indent invariant of the data model, the
forward item blocks share the indent of their first block. -/
theorem fwd_blocks_same_indent (doc : List Block)
    (Hwf : ∀ i, i < doc.length → ∀ j, j < doc.length →
      (getBlock doc i).getAttr "listItemId"
        = (getBlock doc j).getAttr "listItemId" →
      ((getBlock doc i).getAttr "listItemId").isSome = true →
      listIndentOf (getBlock doc i) = listIndentOf (getBlock doc j))
    (idx k : Nat) (hk : k < fwdLenOf doc idx) (hidx : idx < doc.length) :
    listIndentOf (getBlock doc (idx + k)) = listIndentOf (getBlock doc idx)
    := by
  cases h : (getBlock doc idx).getAttr "listItemId" with
  | none =>
    have h1 : fwdLenOf doc idx = 1 := by
      unfold fwdLenOf
      rw [h]
    have : k = 0 := by omega
    subst this
    rfl
  | some v =>
    have hk2 : k < sameIdFwdLen doc idx v := by
      have : fwdLenOf doc idx = sameIdFwdLen doc idx v := by
        unfold fwdLenOf
        rw [h]
      omega
    have hid := sameIdFwdLen_mem doc v idx k hk2
    have hlt : idx + k < doc.length := by
      have h1 := sameIdFwdLen_le doc v idx
      omega
    exact Hwf (idx + k) hlt idx hidx (by rw [hid, h]) (by rw [hid]; rfl)

/-- The facts established by the differ scan of a batch that only changes
recognized attributes, with present new values, on the blocks of one item:
no direct refresh is collected and the changed set stays inside the item. -/
theorem scan_facts (ctx : SchedCtx) (itemBlocks : List Nat)
    (changes : List ChangeEntry)
    (Hentries : ∀ e ∈ changes, ∃ p key old v,
      e = ChangeEntry.attribute p key old (some v) ∧
      ctx.attributeNames.contains key = true ∧ p ∈ itemBlocks) :
    (processEntries ctx changes).itemsToRefresh = [] ∧
    ∀ x ∈ (processEntries ctx changes).changedItems, x ∈ itemBlocks := by
  have H : ∀ (cs : List ChangeEntry) (acc : SchedAcc),
      (∀ e ∈ cs, ∃ p key old v,
        e = ChangeEntry.attribute p key old (some v) ∧
        ctx.attributeNames.contains key = true ∧ p ∈ itemBlocks) →
      acc.itemsToRefresh = [] →
      (∀ x ∈ acc.changedItems, x ∈ itemBlocks) →
      (cs.foldl (processEntry ctx) acc).itemsToRefresh = [] ∧
        ∀ x ∈ (cs.foldl (processEntry ctx) acc).changedItems,
          x ∈ itemBlocks := by
    intro cs
    induction cs with
    | nil => intro acc _ h1 h2; exact ⟨h1, h2⟩
    | cons e rest ih =>
      intro acc hall h1 h2
      simp only [List.foldl_cons]
      obtain ⟨p, key, old, v, he, hkey, hp⟩ := hall e (by simp)
      subst he
      have hstep : processEntry ctx acc
          (ChangeEntry.attribute p key old (some v))
          = { acc with heads := addHead acc.heads (findListHead ctx.doc p)
                       changedItems := acc.changedItems ++ [p] } := by
        simp only [processEntry, hkey]
        simp
      rw [hstep]
      refine ih _ (fun e2 he2 => hall e2 (by simp [he2])) h1 ?_
      intro x hx
      rcases List.mem_append.mp hx with hx | hx
      · exact h2 x hx
      · have : x = p := by simpa using hx
        subst this
        exact hp
  exact H changes { itemsToRefresh := [], heads := [], changedItems := [] }
    Hentries rfl (by simp)

/-- Membership in the per-item collection fold of the walk. -/
theorem collect_out_mem (ctx : SchedCtx) (changed : List Nat)
    (stack : List (Option (List (String × AttrValue))))
    (blocks : List Nat) : ∀ (out : List Nat) (x : Nat),
    x ∈ blocks.foldl (fun acc blk =>
      if doesItemBlockRequiresRefresh ctx blk (some blocks) then acc ++ [blk]
      else if doesItemWrappingRequiresRefresh ctx blk stack changed
      then acc ++ [blk]
      else acc) out →
    x ∈ out ∨ (x ∈ blocks ∧
      (doesItemBlockRequiresRefresh ctx x (some blocks) = true ∨
        doesItemWrappingRequiresRefresh ctx x stack changed = true)) := by
  have H : ∀ (bs : List Nat) (out : List Nat) (x : Nat),
      x ∈ bs.foldl (fun acc blk =>
        if doesItemBlockRequiresRefresh ctx blk (some blocks) then
          acc ++ [blk]
        else if doesItemWrappingRequiresRefresh ctx blk stack changed
        then acc ++ [blk]
        else acc) out →
      x ∈ out ∨ (x ∈ bs ∧
        (doesItemBlockRequiresRefresh ctx x (some blocks) = true ∨
          doesItemWrappingRequiresRefresh ctx x stack changed = true)) := by
    intro bs
    induction bs with
    | nil => intro out x hx; exact Or.inl (by simpa using hx)
    | cons b rest ih =>
      intro out x hx
      simp only [List.foldl_cons] at hx
      by_cases h1 : doesItemBlockRequiresRefresh ctx b (some blocks) = true
      · rw [if_pos h1] at hx
        rcases ih (out ++ [b]) x hx with hx2 | hx2
        · rcases List.mem_append.mp hx2 with hx3 | hx3
          · exact Or.inl hx3
          · have : x = b := by simpa using hx3
            subst this
            exact Or.inr ⟨by simp, Or.inl h1⟩
        · exact Or.inr ⟨by simp [hx2.1], hx2.2⟩
      · rw [if_neg h1] at hx
        by_cases h2 : doesItemWrappingRequiresRefresh ctx b stack changed
            = true
        · rw [if_pos h2] at hx
          rcases ih (out ++ [b]) x hx with hx2 | hx2
          · rcases List.mem_append.mp hx2 with hx3 | hx3
            · exact Or.inl hx3
            · have : x = b := by simpa using hx3
              subst this
              exact Or.inr ⟨by simp, Or.inr h2⟩
          · exact Or.inr ⟨by simp [hx2.1], hx2.2⟩
        · rw [if_neg h2] at hx
          rcases ih out x hx with hx2 | hx2
          · exact Or.inl hx2
          · exact Or.inr ⟨by simp [hx2.1], hx2.2⟩
  exact H blocks

/-- The wrapping check of an unexempt mapped item is the ancestor walk. -/
theorem doesItemWrapping_eq_some (ctx : SchedCtx) (i : Nat)
    (stack : List (Option (List (String × AttrValue))))
    (changed : List Nat) (v : ViewElem)
    (hni : i ∉ changed) (hv : ctx.viewOf i = some v) :
    doesItemWrappingRequiresRefresh ctx i stack changed
      = wrappingWalk ctx v.ancestors stack ((stack.length : Int) - 1) := by
  unfold doesItemWrappingRequiresRefresh
  rw [if_neg hni, hv]

/-- The wrapping check of an unexempt unmapped item answers false. -/
theorem doesItemWrapping_eq_none (ctx : SchedCtx) (i : Nat)
    (stack : List (Option (List (String × AttrValue))))
    (changed : List Nat)
    (hni : i ∉ changed) (hv : ctx.viewOf i = none) :
    doesItemWrappingRequiresRefresh ctx i stack changed = false := by
  unfold doesItemWrappingRequiresRefresh
  rw [if_neg hni, hv]

/-- A collect step at a fresh index, fully described. -/
theorem collectStep_of_not_mem (ctx : SchedCtx) (changed : List Nat)
    (head : Nat) (st : CollectState) (idx : Nat) (h : idx ∉ st.visited) :
    collectStep ctx changed head st idx =
      { visited := st.visited ++ getListItemBlocksFwd ctx.doc idx
        stack := stackSet
          (if head < idx ∧ listIndentOf (getBlock ctx.doc idx)
              < listIndentOf (getBlock ctx.doc (idx - 1)) then
            stackSetLength st.stack
              (listIndentOf (getBlock ctx.doc idx) + 1)
          else st.stack)
          (listIndentOf (getBlock ctx.doc idx))
          (filteredAttrsOf ctx (getBlock ctx.doc idx))
        out := (getListItemBlocksFwd ctx.doc idx).foldl (fun acc blk =>
          if doesItemBlockRequiresRefresh ctx blk
              (some (getListItemBlocksFwd ctx.doc idx)) then acc ++ [blk]
          else if doesItemWrappingRequiresRefresh ctx blk
              (stackSet
                (if head < idx ∧ listIndentOf (getBlock ctx.doc idx)
                    < listIndentOf (getBlock ctx.doc (idx - 1)) then
                  stackSetLength st.stack
                    (listIndentOf (getBlock ctx.doc idx) + 1)
                else st.stack)
                (listIndentOf (getBlock ctx.doc idx))
                (filteredAttrsOf ctx (getBlock ctx.doc idx)))
              changed
          then acc ++ [blk]
          else acc) st.out } := by
  unfold collectStep
  rw [if_neg h]

/-- The collect walk only ever collects blocks of the changed item when the
batch touched only that item and the view of every other block is
consistent: its classification agrees with its view and it is wrapped in at
least one list wrapper per level. -/
theorem collect_go2 (ctx : SchedCtx) (changed : List Nat) (head : Nat)
    (itemBlocks : List Nat)
    (Hwf : ∀ i, i < ctx.doc.length → ∀ j, j < ctx.doc.length →
      (getBlock ctx.doc i).getAttr "listItemId"
        = (getBlock ctx.doc j).getAttr "listItemId" →
      ((getBlock ctx.doc i).getAttr "listItemId").isSome = true →
      listIndentOf (getBlock ctx.doc i) = listIndentOf (getBlock ctx.doc j))
    (Hbogus : ∀ i b, i ∉ itemBlocks →
      doesItemBlockRequiresRefresh ctx i b = false)
    (Hca : ∀ b va sa, ctx.checkAttributes b va sa = false)
    (Hview : ∀ i, i ∉ itemBlocks → ∀ v, ctx.viewOf i = some v →
      listIndentOf (getBlock ctx.doc i) + 1 ≤ listAncCount v.ancestors)
    (Hch : ∀ x ∈ changed, x ∈ itemBlocks) :
    ∀ (n j f : Nat) (st : CollectState),
    listRunLen ctx.doc head - j ≤ n →
    j ≤ f → f ≤ listRunLen ctx.doc head →
    st.visited = List.range' head f →
    (f = 0 → st.stack = []) →
    (0 < f → st.stack.length
      = listIndentOf (getBlock ctx.doc (head + f - 1)) + 1) →
    (∀ x ∈ st.out, x ∈ itemBlocks) →
    ∀ x ∈ ((List.range' (head + j) (listRunLen ctx.doc head - j)).foldl
        (collectStep ctx changed head) st).out, x ∈ itemBlocks := by
  intro n
  induction n with
  | zero =>
    intro j f st hn hjf hfL hv hs0 hs1 hout
    have h0 : listRunLen ctx.doc head - j = 0 := by omega
    rw [h0]
    simpa using hout
  | succ n ih =>
    intro j f st hn hjf hfL hv hs0 hs1 hout
    by_cases hj : listRunLen ctx.doc head - j = 0
    · rw [hj]
      simpa using hout
    · have hjL : j < listRunLen ctx.doc head := by omega
      have hsplit : listRunLen ctx.doc head - j
          = (listRunLen ctx.doc head - (j + 1)) + 1 := by omega
      rw [hsplit, List.range'_succ]
      simp only [List.foldl_cons]
      by_cases hcase : j < f
      · have hmem : head + j ∈ st.visited := by
          rw [hv, List.mem_range'_1]
          omega
        rw [collectStep_of_mem ctx changed head st (head + j) hmem]
        intro x hx
        refine ih (j + 1) f st (by omega) (by omega) hfL hv hs0 hs1 hout x ?_
        simpa [Nat.add_assoc] using hx
      · have hjf2 : j = f := by omega
        subst hjf2
        have hnot : head + j ∉ st.visited := by
          rw [hv, List.mem_range'_1]
          omega
        have hlj : isListItemBlock (getBlock ctx.doc (head + j)) = true :=
          listRunLen_mem ctx.doc head j hjL
        have hlt : head + j < ctx.doc.length :=
          lt_length_of_isList _ _ hlj
        have hm1 : 1 ≤ fwdLenOf ctx.doc (head + j) :=
          fwdLenOf_pos ctx.doc (head + j) hlt
        have hmle : head + j + fwdLenOf ctx.doc (head + j) ≤ ctx.doc.length :=
          fwdLenOf_le ctx.doc (head + j) hlt
        have hall : ∀ k, k < j + fwdLenOf ctx.doc (head + j) →
            isListItemBlock (getBlock ctx.doc (head + k)) = true := by
          intro k hk
          by_cases hkj : k < j
          · exact listRunLen_mem ctx.doc head k (by omega)
          · have heq : head + k = (head + j) + (k - j) := by omega
            rw [heq]
            exact fwdLenOf_isList ctx.doc (head + j) hlj (k - j) (by omega)
        have hjm : j + fwdLenOf ctx.doc (head + j) ≤ listRunLen ctx.doc head
          := listRunLen_max ctx.doc (j + fwdLenOf ctx.doc (head + j)) head
            hall (by omega)
        rw [collectStep_of_not_mem ctx changed head st (head + j) hnot]
        set ind := listIndentOf (getBlock ctx.doc (head + j)) with hind
        set S1 := (if head < head + j ∧ ind
            < listIndentOf (getBlock ctx.doc (head + j - 1)) then
          stackSetLength st.stack (ind + 1)
        else st.stack) with hS1
        set S2 := stackSet S1 ind
          (filteredAttrsOf ctx (getBlock ctx.doc (head + j))) with hS2
        have hS1len : S1.length ≤ ind + 1 := by
          rw [hS1]
          split_ifs with htrim
          · rw [stackSetLength_length]
          · by_cases hj0 : j = 0
            · subst hj0
              rw [hs0 rfl]
              simp
            · have hlen := hs1 (by omega)
              have hge : listIndentOf (getBlock ctx.doc (head + j - 1)) ≤ ind
                := by
                by_contra hc
                exact htrim ⟨by omega, by omega⟩
              omega
        have hS2len : S2.length = ind + 1 := by
          rw [hS2, stackSet_length]
          omega
        have hindfwd : ∀ k, k < fwdLenOf ctx.doc (head + j) →
            listIndentOf (getBlock ctx.doc (head + j + k)) = ind :=
          fun k hk => fwd_blocks_same_indent ctx.doc Hwf (head + j) k hk hlt
        have hO2 : ∀ x ∈ (getListItemBlocksFwd ctx.doc (head + j)).foldl
            (fun acc blk =>
              if doesItemBlockRequiresRefresh ctx blk
                  (some (getListItemBlocksFwd ctx.doc (head + j))) then
                acc ++ [blk]
              else if doesItemWrappingRequiresRefresh ctx blk S2 changed
              then acc ++ [blk]
              else acc) st.out, x ∈ itemBlocks := by
          intro x hx
          rcases collect_out_mem ctx changed S2
            (getListItemBlocksFwd ctx.doc (head + j)) st.out x hx with
            hx2 | ⟨hxb, hx3⟩
          · exact hout x hx2
          · by_contra hxi
            rcases hx3 with hx3 | hx3
            · rw [Hbogus x _ hxi] at hx3
              exact Bool.noConfusion hx3
            · have hxch : x ∉ changed := fun hc => hxi (Hch x hc)
              rw [getListItemBlocksFwd_eq_range, List.mem_range'_1] at hxb
              have hxind : listIndentOf (getBlock ctx.doc x) = ind := by
                have heq : x = head + j + (x - (head + j)) := by omega
                rw [heq]
                exact hindfwd (x - (head + j)) (by omega)
              cases hvx : ctx.viewOf x with
              | none =>
                rw [doesItemWrapping_eq_none ctx x S2 changed hxch hvx]
                  at hx3
                exact Bool.noConfusion hx3
              | some v =>
                rw [doesItemWrapping_eq_some ctx x S2 changed v hxch hvx]
                  at hx3
                have hcnt := Hview x hxi v hvx
                rw [hxind] at hcnt
                have hwalk := wrappingWalk_false ctx Hca v.ancestors S2
                  ((S2.length : Int) - 1) (by omega)
                  (by
                    rw [hS2len]
                    push_cast
                    omega)
                rw [hwalk] at hx3
                exact Bool.noConfusion hx3
        intro x hx
        refine ih (j + 1) (j + fwdLenOf ctx.doc (head + j))
          { visited := st.visited ++ getListItemBlocksFwd ctx.doc (head + j)
            stack := S2
            out := (getListItemBlocksFwd ctx.doc (head + j)).foldl
              (fun acc blk =>
                if doesItemBlockRequiresRefresh ctx blk
                    (some (getListItemBlocksFwd ctx.doc (head + j))) then
                  acc ++ [blk]
                else if doesItemWrappingRequiresRefresh ctx blk S2 changed
                then acc ++ [blk]
                else acc) st.out }
          (by omega) (by omega) hjm ?_ (by omega) ?_ hO2 x ?_
        · simp only
          rw [hv, getListItemBlocksFwd_eq_range, range'_append_adjacent]
        · intro _
          simp only [hS2len]
          have heq : head + (j + fwdLenOf ctx.doc (head + j)) - 1
              = head + j + (fwdLenOf ctx.doc (head + j) - 1) := by omega
          rw [heq, hindfwd (fwdLenOf ctx.doc (head + j) - 1) (by omega)]
        · simpa [Nat.add_assoc] using hx

/-- C2 as amended: for a change batch that only alters recognized list
attributes, with present new values, on the blocks of a single item, and
whose remaining document is consistent with its view (the classification of
every block outside the item agrees with its view, every wrapper strategy
confirms its wrapper, and every such mapped block carries one list wrapper
per level), the refresh set computed by the scheduler contains at most the
blocks of that item and never an ancestor or sibling block; moreover a
block in the changed-this-batch set is never added by the
wrapper-attribute check. -/
theorem c2_minimal_reconversion (ctx : SchedCtx) (itemBlocks : List Nat)
    (changes : List ChangeEntry)
    (Hwf : ∀ i, i < ctx.doc.length → ∀ j, j < ctx.doc.length →
      (getBlock ctx.doc i).getAttr "listItemId"
        = (getBlock ctx.doc j).getAttr "listItemId" →
      ((getBlock ctx.doc i).getAttr "listItemId").isSome = true →
      listIndentOf (getBlock ctx.doc i) = listIndentOf (getBlock ctx.doc j))
    (Hentries : ∀ e ∈ changes, ∃ p key old v,
      e = ChangeEntry.attribute p key old (some v) ∧
      ctx.attributeNames.contains key = true ∧ p ∈ itemBlocks)
    (Hbogus : ∀ i b, i ∉ itemBlocks →
      doesItemBlockRequiresRefresh ctx i b = false)
    (Hca : ∀ b va sa, ctx.checkAttributes b va sa = false)
    (Hview : ∀ i, i ∉ itemBlocks → ∀ v, ctx.viewOf i = some v →
      listIndentOf (getBlock ctx.doc i) + 1 ≤ listAncCount v.ancestors) :
    (∀ i ∈ reconvertItemsOnDataChange ctx changes, i ∈ itemBlocks) ∧
    (∀ i stack ch, i ∈ ch →
      doesItemWrappingRequiresRefresh ctx i stack ch = false) := by
  obtain ⟨hscan1, hscan2⟩ := scan_facts ctx itemBlocks changes Hentries
  constructor
  · intro i hi
    have hraw : i ∈ reconvertItemsRaw ctx changes :=
      ((firstDedup_spec (reconvertItemsRaw ctx changes)).2 i).mp hi
    revert hraw
    unfold reconvertItemsRaw
    have Hfold : ∀ (hs : List Nat) (init : List Nat),
        (∀ x ∈ init, x ∈ itemBlocks) →
        ∀ x ∈ hs.foldl (fun out h => out ++ collectListItemsToRefresh ctx h
          (processEntries ctx changes).changedItems) init,
          x ∈ itemBlocks := by
      intro hs
      induction hs with
      | nil =>
        intro init hinit x hx
        exact hinit x (by simpa using hx)
      | cons h rest ih =>
        intro init hinit x hx
        simp only [List.foldl_cons] at hx
        refine ih _ ?_ x hx
        intro y hy
        rcases List.mem_append.mp hy with hy | hy
        · exact hinit y hy
        · revert hy
          unfold collectListItemsToRefresh listRun
          have hrw : (List.range (listRunLen ctx.doc h)).map
              (fun k => h + k)
              = List.range' (h + 0) (listRunLen ctx.doc h - 0) := by
            simp [List.range'_eq_map_range]
          rw [hrw]
          intro hy
          exact collect_go2 ctx (processEntries ctx changes).changedItems h
            itemBlocks Hwf Hbogus Hca Hview hscan2
            (listRunLen ctx.doc h) 0 0
            { visited := [], stack := [], out := [] }
            (by omega) (by omega) (by omega) rfl (fun _ => rfl)
            (by omega) (by simp) y hy
    intro hraw
    exact Hfold (processEntries ctx changes).heads
      (processEntries ctx changes).itemsToRefresh
      (by rw [hscan1]; simp) i hraw
  · intro i stack ch hi
    unfold doesItemWrappingRequiresRefresh
    rw [if_pos hi]

/-- Counterexample to C2 as stated: a batch that only changes the listType
attribute of a single-block leaf item whose view is fully consistent yields
an empty refresh set, so the refresh set does not contain exactly the
blocks of the item, whereas the claim requires it to contain them. -/
theorem c2_counterexample :
    reconvertItemsOnDataChange
      ({ attributeNames := ["listItemId", "listIndent", "listType"], doc := [({ name := "paragraph", attrs := [("listItemId", .nat 1), ("listIndent", .nat 0), ("listType", .str "numbered")] } : Block)], viewOf := fun i => if i = 0 then some { vname := "span", ancestors := [{ vname := "li", vattrs := [] }, { vname := "ul", vattrs := [] }] } else none, checkElement := fun _ => false, checkAttributes := fun _ _ _ => false } : SchedCtx)
      [ChangeEntry.attribute 0 "listType" (some (.str "bulleted")) (some (.str "numbered"))] = [] ∧
    getAllListItemBlocks [({ name := "paragraph", attrs := [("listItemId", .nat 1), ("listIndent", .nat 0), ("listType", .str "numbered")] } : Block)] 0 = [0] ∧
    reconvertItemsOnDataChange
      ({ attributeNames := ["listItemId", "listIndent", "listType"], doc := [({ name := "paragraph", attrs := [("listItemId", .nat 1), ("listIndent", .nat 0), ("listType", .str "numbered")] } : Block)], viewOf := fun i => if i = 0 then some { vname := "span", ancestors := [{ vname := "li", vattrs := [] }, { vname := "ul", vattrs := [] }] } else none, checkElement := fun _ => false, checkAttributes := fun _ _ _ => false } : SchedCtx)
      [ChangeEntry.attribute 0 "listType" (some (.str "bulleted")) (some (.str "numbered"))]
      ≠ getAllListItemBlocks [({ name := "paragraph", attrs := [("listItemId", .nat 1), ("listIndent", .nat 0), ("listType", .str "numbered")] } : Block)] 0 :=
  ⟨by decide, by decide, by decide⟩

/-- Witness for the amended C2 at a concrete input: the single changed
block carries a foreign attribute, so its classification flipped and it is
collected, and nothing outside the item ever is. -/
theorem c2_minimal_reconversion_witness :
    (∀ i ∈ reconvertItemsOnDataChange
      ({ attributeNames := ["listItemId", "listIndent", "listType"], doc := [({ name := "paragraph", attrs := [("listItemId", .nat 1), ("listIndent", .nat 0), ("listType", .str "numbered"), ("foo", .str "x")] } : Block)], viewOf := fun i => if i = 0 then some { vname := "span", ancestors := [{ vname := "li", vattrs := [] }, { vname := "ul", vattrs := [] }] } else none, checkElement := fun _ => false, checkAttributes := fun _ _ _ => false } : SchedCtx)
      [ChangeEntry.attribute 0 "listType" (some (.str "bulleted")) (some (.str "numbered"))], i ∈ [0]) ∧
    (∀ i stack ch, i ∈ ch →
      doesItemWrappingRequiresRefresh
        ({ attributeNames := ["listItemId", "listIndent", "listType"], doc := [({ name := "paragraph", attrs := [("listItemId", .nat 1), ("listIndent", .nat 0), ("listType", .str "numbered"), ("foo", .str "x")] } : Block)], viewOf := fun i => if i = 0 then some { vname := "span", ancestors := [{ vname := "li", vattrs := [] }, { vname := "ul", vattrs := [] }] } else none, checkElement := fun _ => false, checkAttributes := fun _ _ _ => false } : SchedCtx)
        i stack ch = false) := by
  refine c2_minimal_reconversion
    ({ attributeNames := ["listItemId", "listIndent", "listType"], doc := [({ name := "paragraph", attrs := [("listItemId", .nat 1), ("listIndent", .nat 0), ("listType", .str "numbered"), ("foo", .str "x")] } : Block)], viewOf := fun i => if i = 0 then some { vname := "span", ancestors := [{ vname := "li", vattrs := [] }, { vname := "ul", vattrs := [] }] } else none, checkElement := fun _ => false, checkAttributes := fun _ _ _ => false } : SchedCtx)
    [0]
    [ChangeEntry.attribute 0 "listType" (some (.str "bulleted")) (some (.str "numbered"))]
    (by decide) ?_ ?_ (fun _ _ _ => rfl) ?_
  · intro e he
    have he2 : e = ChangeEntry.attribute 0 "listType"
        (some (.str "bulleted")) (some (.str "numbered")) := by
      simpa using he
    subst he2
    exact ⟨0, "listType", some (.str "bulleted"), .str "numbered", rfl,
      by decide, by decide⟩
  · intro i b hi
    have hne : i ≠ 0 := by simpa using hi
    unfold doesItemBlockRequiresRefresh
    have hv : (({ attributeNames := ["listItemId", "listIndent", "listType"], doc := [({ name := "paragraph", attrs := [("listItemId", .nat 1), ("listIndent", .nat 0), ("listType", .str "numbered"), ("foo", .str "x")] } : Block)], viewOf := fun i => if i = 0 then some { vname := "span", ancestors := [{ vname := "li", vattrs := [] }, { vname := "ul", vattrs := [] }] } else none, checkElement := fun _ => false, checkAttributes := fun _ _ _ => false } : SchedCtx)).viewOf i = none := by
      show (if i = 0 then some ({ vname := "span", ancestors := [{ vname := "li", vattrs := [] }, { vname := "ul", vattrs := [] }] } : ViewElem) else none) = none
      rw [if_neg hne]
    rw [hv]
  · intro i hi v hv
    have hne : i ≠ 0 := by simpa using hi
    have hv2 : (if i = 0 then some ({ vname := "span", ancestors := [{ vname := "li", vattrs := [] }, { vname := "ul", vattrs := [] }] } : ViewElem) else none) = some v := hv
    rw [if_neg hne] at hv2
    exact Option.noConfusion hv2

/-- The fresh paragraph block carries its identifier. -/
theorem mkPara_id (tag : String) (d uid : Nat) :
    (mkPara tag d uid).getAttr "listItemId" = some (.nat uid) := rfl

/-- The fresh paragraph block carries its depth. -/
theorem mkPara_indent (tag : String) (d uid : Nat) :
    listIndentOf (mkPara tag d uid) = d := rfl

/-- The fresh paragraph block is a list block. -/
theorem mkPara_isList (tag : String) (d uid : Nat) :
    isListItemBlock (mkPara tag d uid) = true := rfl

/-- The fresh paragraph block wraps into the list element of its tag. -/
theorem mkPara_viewName (tag : String) (d uid : Nat)
    (htag : tag = "ol" ∨ tag = "ul") :
    listViewElementName ((mkPara tag d uid).getAttr "listType") = tag := by
  rcases htag with rfl | rfl <;> rfl

/-- The attribute assignment of the upcast converter on a fresh paragraph
produces exactly the fresh list paragraph. -/
theorem setListAttrs_fresh (tag : String) (d uid : Nat) :
    setListAttrs (.nat uid) d (typeOfTag tag)
      { name := "paragraph", attrs := [] } = mkPara tag d uid := rfl

/-- Mapping the upcast update over blocks that already carry an identifier
changes nothing. -/
theorem map_upcastUpdate_id (fid : AttrValue) (ind : Nat) (ty : String) :
    ∀ l : List Block, (∀ b ∈ l, b.hasAttr "listItemId" = true) →
    l.map (upcastUpdate (fun _ => true) fid ind ty) = l := by
  intro l
  induction l with
  | nil => intro _; rfl
  | cons b rest ih =>
    intro h
    have hb : b.hasAttr "listItemId" = true := h b (by simp)
    simp only [List.map_cons]
    rw [ih (fun x hx => h x (by simp [hx]))]
    have : upcastUpdate (fun _ => true) fid ind ty b = b := by
      unfold upcastUpdate
      rw [if_neg]
      rintro ⟨_, h2⟩
      rw [hb] at h2
      exact Bool.noConfusion h2
    rw [this]

/-- A constant-true filter keeps the list. -/
theorem filter_const_true (l : List Block) :
    l.filter (fun b => (fun _ : String => true) b.name) = l := by
  induction l with
  | nil => rfl
  | cons b rest ih => simp [List.filter_cons, ih]

/-- The upcast converter on a fresh paragraph followed by already converted
sublist blocks tags the paragraph and keeps the sublist blocks. -/
theorem upcastConvert_para_cons (tag : String) (d uid : Nat)
    (subBlocks : List Block)
    (Hids : ∀ b ∈ subBlocks, b.hasAttr "listItemId" = true) :
    ∃ k, listItemUpcastConvert (fun _ => true) tag d (.nat uid)
        (({ name := "paragraph", attrs := [] } : Block) :: subBlocks)
      = some { range := mkPara tag d uid :: subBlocks
               keepEmptyFirst := k } := by
  have hty : upcastListType tag
      (({ name := "paragraph", attrs := [] } : Block) :: subBlocks)
      = typeOfTag tag := rfl
  have hrange : (({ name := "paragraph", attrs := [] } : Block)
        :: subBlocks).map
      (upcastUpdate (fun _ => true) (.nat uid) d
        (upcastListType tag
          (({ name := "paragraph", attrs := [] } : Block) :: subBlocks)))
      = mkPara tag d uid :: subBlocks := by
    rw [hty]
    simp only [List.map_cons]
    rw [map_upcastUpdate_id _ _ _ subBlocks Hids]
    have hpara : upcastUpdate (fun _ => true) (.nat uid) d (typeOfTag tag)
        { name := "paragraph", attrs := [] } = mkPara tag d uid := by
      unfold upcastUpdate
      rw [if_pos ⟨rfl, rfl⟩]
      exact setListAttrs_fresh tag d uid
    rw [hpara]
  simp only [listItemUpcastConvert, filter_const_true]
  rw [if_neg (by simp)]
  rw [hrange]
  exact ⟨_, rfl⟩

/-- The item upcast reduces to the tagged paragraph followed by the
sublist blocks, with the next free identifier advanced by one. -/
theorem upcastNItem_reduce (tag : String) (d : Nat) (content : String)
    (sub : Option NList) (uid : Nat)
    (Hids : ∀ b ∈ (upcastSub d sub uid).1,
      b.hasAttr "listItemId" = true) :
    upcastNItem tag d (.mk content sub) uid
      = (mkPara tag d (upcastSub d sub uid).2 :: (upcastSub d sub uid).1,
        (upcastSub d sub uid).2 + 1) := by
  obtain ⟨k, hk⟩ := upcastConvert_para_cons tag d (upcastSub d sub uid).2
    (upcastSub d sub uid).1 Hids
  simp only [upcastNItem]
  rw [hk]

/-- The lower-indent search skips list blocks at or above the reference. -/
theorem findLowerIndentSibling_skip (ref : Nat) :
    ∀ (bs ext : List Block),
    (∀ b ∈ bs, isListItemBlock b = true ∧ ref ≤ listIndentOf b) →
    findLowerIndentSibling (bs ++ ext) ref
      = findLowerIndentSibling ext ref := by
  intro bs
  induction bs with
  | nil => intro ext _; rfl
  | cons b rest ih =>
    intro ext h
    have hb := h b (by simp)
    simp only [List.cons_append]
    rw [findLowerIndentSibling]
    rw [if_neg (by simp [hb.1]), if_neg (by omega)]
    exact ih ext (fun x hx => h x (by simp [hx]))

/-- The lower-indent search from a fresh paragraph finds that paragraph for
the next depth. -/
theorem findLowerIndentSibling_mkPara (tag : String) (d uid : Nat)
    (pre : List Block) :
    findLowerIndentSibling (mkPara tag d uid :: pre) (d + 1)
      = some (mkPara tag d uid, pre) := by
  simp [findLowerIndentSibling, mkPara_isList, mkPara_indent]

/-- The governing chain of a fresh paragraph extends the chain found below
it by its own list tag. -/
theorem govNames_mkPara (tag : String) (d uid : Nat) (pre : List Block)
    (parentTags : List String)
    (htag : tag = "ol" ∨ tag = "ul")
    (hd : d = parentTags.length)
    (HExt : 0 < d → ∃ g rest,
      findLowerIndentSibling pre d = some (g, rest) ∧
      govNames (d - 1) g rest = parentTags) :
    govNames d (mkPara tag d uid) pre = tag :: parentTags := by
  cases d with
  | zero =>
    have hnil : parentTags = [] := by
      cases parentTags with
      | nil => rfl
      | cons a l => simp at hd
    subst hnil
    unfold govNames govSteps
    simp only [List.map_cons, List.map_nil]
    rw [mkPara_viewName tag 0 uid htag]
  | succ k =>
    obtain ⟨g, rest, hfind, hgov⟩ := HExt (Nat.succ_pos k)
    unfold govNames
    rw [govSteps]
    rw [mkPara_indent]
    rw [hfind]
    simp only [List.map_cons]
    rw [mkPara_viewName tag (k + 1) uid htag]
    unfold govNames at hgov
    rw [show k + 1 - 1 = k from rfl] at hgov
    rw [hgov]

/-- The empty segment satisfies the correspondence. -/
theorem UpcastSpecOK_nil (u : Nat) (pre : List Block) (dmin : Nat) :
    UpcastSpecOK u pre dmin [] ([], u) := by
  refine ⟨le_refl u, rfl, ?_, ?_, ?_, ?_⟩
  · intro b hb; simp at hb
  · intro b hb; simp at hb
  · simp
  · intro i hi; simp at hi

/-- Two consecutive correspondence segments concatenate, the second taken
with the first's blocks added to the reversed prefix and the first's next
identifier as its base. -/
theorem UpcastSpecOK_append (u : Nat) (pre : List Block) (dmin : Nat)
    (ds1 ds2 : List BDesc) (a b : List Block × Nat)
    (ha : UpcastSpecOK u pre dmin ds1 a)
    (hb : UpcastSpecOK a.2 (a.1.reverse ++ pre) dmin ds2 b) :
    UpcastSpecOK u pre dmin (ds1 ++ ds2) (a.1 ++ b.1, b.2) := by
  obtain ⟨hu1, hl1, hm1, hi1, hn1, hx1⟩ := ha
  obtain ⟨hu2, hl2, hm2, hi2, hn2, hx2⟩ := hb
  refine ⟨le_trans hu1 hu2, ?_, ?_, ?_, ?_, ?_⟩
  · simp [hl1, hl2]
  · intro x hx
    rcases List.mem_append.mp hx with h | h
    · exact hm1 x h
    · exact hm2 x h
  · intro x hx
    rcases List.mem_append.mp hx with h | h
    · obtain ⟨n, h1, h2, h3⟩ := hi1 x h
      exact ⟨n, h1, h2, lt_of_lt_of_le h3 hu2⟩
    · obtain ⟨n, h1, h2, h3⟩ := hi2 x h
      exact ⟨n, h1, le_trans hu1 h2, h3⟩
  · rw [List.map_append]
    rw [List.nodup_append]
    refine ⟨hn1, hn2, ?_⟩
    intro v hv1 hv2
    obtain ⟨x, hxmem, hxv⟩ := List.mem_map.mp hv1
    obtain ⟨y, hymem, hyv⟩ := List.mem_map.mp hv2
    obtain ⟨n, hn, _, hnlt⟩ := hi1 x hxmem
    obtain ⟨m, hm, hmge, _⟩ := hi2 y hymem
    rw [hn] at hxv
    rw [hm] at hyv
    rw [← hxv] at hyv
    have : n = m := by
      injection hyv.symm with h
      injection h
    omega
  · intro i hi
    simp only [List.length_append] at hi
    by_cases hcase : i < a.1.length
    · have hgd : (a.1 ++ b.1).getD i default = a.1.getD i default :=
        List.getD_append a.1 b.1 default i hcase
      have hds : (ds1 ++ ds2).getD i default = ds1.getD i default :=
        List.getD_append ds1 ds2 default i (by omega)
      have htk : (a.1 ++ b.1).take i = a.1.take i := by
        rw [List.take_append_eq_append_take]
        have : i - a.1.length = 0 := by omega
        rw [this]
        simp
      rw [hgd, hds, htk]
      exact hx1 i hcase
    · have hlen : a.1.length ≤ i := by omega
      obtain ⟨j, rfl⟩ : ∃ j, i = a.1.length + j :=
        ⟨i - a.1.length, by omega⟩
      have hj : j < b.1.length := by omega
      have hgd : (a.1 ++ b.1).getD (a.1.length + j) default
          = b.1.getD j default := by
        rw [List.getD_append_right a.1 b.1 default _ (by omega)]
        congr 1
        omega
      have hds : (ds1 ++ ds2).getD (a.1.length + j) default
          = ds2.getD j default := by
        rw [List.getD_append_right ds1 ds2 default _ (by omega)]
        congr 1
        omega
      have htk : (a.1 ++ b.1).take (a.1.length + j)
          = a.1 ++ b.1.take j := by
        rw [List.take_append_eq_append_take]
        rw [List.take_of_length_le (by omega)]
        congr 2
        omega
      rw [hgd, hds, htk]
      have := hx2 j hj
      rw [List.reverse_append] at *
      simpa [List.append_assoc] using this

/-- One item's correspondence: a fresh paragraph at its depth followed by a
correspondence segment one level deeper, taken over the prefix extended by
the paragraph. -/
theorem UpcastSpecOK_item (tag : String) (d : Nat)
    (parentTags : List String) (u : Nat) (pre : List Block)
    (ds : List BDesc) (sb : List Block × Nat)
    (htag : tag = "ol" ∨ tag = "ul")
    (hd : d = parentTags.length)
    (HExt : 0 < d → ∃ g rest,
      findLowerIndentSibling pre d = some (g, rest) ∧
      govNames (d - 1) g rest = parentTags)
    (hsb : UpcastSpecOK u (mkPara tag d sb.2 :: pre) (d + 1) ds sb) :
    UpcastSpecOK u pre d
      ({ depth := d, path := tag :: parentTags } :: ds)
      (mkPara tag d sb.2 :: sb.1, sb.2 + 1) := by
  obtain ⟨hu, hl, hm, hi, hn, hx⟩ := hsb
  refine ⟨by omega, by simp [hl], ?_, ?_, ?_, ?_⟩
  · intro x hx2
    rcases List.mem_cons.mp hx2 with rfl | h
    · exact ⟨mkPara_isList tag d sb.2, le_of_eq (mkPara_indent tag d sb.2).symm⟩
    · obtain ⟨h1, h2⟩ := hm x h
      exact ⟨h1, by omega⟩
  · intro x hx2
    rcases List.mem_cons.mp hx2 with rfl | h
    · exact ⟨sb.2, mkPara_id tag d sb.2, hu, by omega⟩
    · obtain ⟨n, h1, h2, h3⟩ := hi x h
      exact ⟨n, h1, h2, by omega⟩
  · rw [List.map_cons, List.nodup_cons]
    refine ⟨?_, hn⟩
    intro hmem
    obtain ⟨y, hymem, hyv⟩ := List.mem_map.mp hmem
    obtain ⟨n, h1, _, h3⟩ := hi y hymem
    rw [h1, mkPara_id] at hyv
    have : n = sb.2 := by
      injection hyv with h
      injection h
    omega
  · intro i hi2
    cases i with
    | zero =>
      simp only [List.getD_cons_zero, List.take_zero, List.reverse_nil,
        List.nil_append]
      refine ⟨mkPara_indent tag d sb.2, ?_⟩
      rw [mkPara_indent]
      exact govNames_mkPara tag d sb.2 pre parentTags htag hd HExt
    | succ j =>
      have hj : j < sb.1.length := by
        simp only [List.length_cons] at hi2
        omega
      simp only [List.getD_cons_succ, List.take_succ_cons,
        List.reverse_cons, List.append_assoc, List.singleton_append]
      exact hx j hj

mutual
/-- Each converted item satisfies the correspondence with its descriptors. -/
theorem upcast_spec_it (tag : String) (d : Nat) (parentTags : List String)
    (it : NItem) :
    ∀ (u : Nat) (pre : List Block),
    (tag = "ol" ∨ tag = "ul") → d = parentTags.length →
    (0 < d → ∃ g rest, findLowerIndentSibling pre d = some (g, rest) ∧
      govNames (d - 1) g rest = parentTags) →
    UpcastSpecOK u pre d (specNItem d (tag :: parentTags) it)
      (upcastNItem tag d it u) := by
  intro u pre htag hd HExt
  cases it with
  | mk content sub =>
    cases sub with
    | none =>
      have hred := upcastNItem_reduce tag d content none u
        (by intro b hb; simp [upcastSub] at hb)
      rw [hred]
      exact UpcastSpecOK_item tag d parentTags u pre [] ([], u) htag hd HExt
        (UpcastSpecOK_nil u (mkPara tag d u :: pre) (d + 1))
    | some l =>
      have hsub := upcast_spec_l (d + 1) (tag :: parentTags) l u
        (mkPara tag d (upcastNList (d + 1) l u).2 :: pre)
        (by simp [hd])
        (fun _ => ⟨mkPara tag d (upcastNList (d + 1) l u).2, pre,
          findLowerIndentSibling_mkPara tag d _ pre,
          govNames_mkPara tag d _ pre parentTags htag hd HExt⟩)
      have hids : ∀ b ∈ (upcastSub d (some l) u).1,
          b.hasAttr "listItemId" = true := by
        intro b hb
        exact (hsub.2.2.1 b hb).1
      have hred := upcastNItem_reduce tag d content (some l) u hids
      rw [hred]
      exact UpcastSpecOK_item tag d parentTags u pre _ _ htag hd HExt hsub

/-- Each converted nested list satisfies the correspondence with its
descriptors. -/
theorem upcast_spec_l (d : Nat) (parentTags : List String) (l : NList) :
    ∀ (u : Nat) (pre : List Block),
    d = parentTags.length →
    (0 < d → ∃ g rest, findLowerIndentSibling pre d = some (g, rest) ∧
      govNames (d - 1) g rest = parentTags) →
    UpcastSpecOK u pre d (specNList d parentTags l)
      (upcastNList d l u) := by
  intro u pre hd HExt
  cases l with
  | mk ordered items =>
    have htag : listTag ordered = "ol" ∨ listTag ordered = "ul" := by
      cases ordered
      · right; rfl
      · left; rfl
    exact upcast_spec_items (listTag ordered) d parentTags items u pre
      htag hd HExt

/-- Each converted item sequence satisfies the correspondence with its
descriptors. -/
theorem upcast_spec_items (tag : String) (d : Nat)
    (parentTags : List String) (items : List NItem) :
    ∀ (u : Nat) (pre : List Block),
    (tag = "ol" ∨ tag = "ul") → d = parentTags.length →
    (0 < d → ∃ g rest, findLowerIndentSibling pre d = some (g, rest) ∧
      govNames (d - 1) g rest = parentTags) →
    UpcastSpecOK u pre d (specNItems d (tag :: parentTags) items)
      (upcastNItems tag d items u) := by
  intro u pre htag hd HExt
  cases items with
  | nil => exact UpcastSpecOK_nil u pre d
  | cons it rest =>
    have ha := upcast_spec_it tag d parentTags it u pre htag hd HExt
    have HExt2 : 0 < d → ∃ g r2,
        findLowerIndentSibling
          ((upcastNItem tag d it u).1.reverse ++ pre) d = some (g, r2) ∧
        govNames (d - 1) g r2 = parentTags := by
      intro hdpos
      obtain ⟨g, r2, hfind, hgov⟩ := HExt hdpos
      refine ⟨g, r2, ?_, hgov⟩
      have hmem : ∀ b ∈ (upcastNItem tag d it u).1.reverse,
          isListItemBlock b = true ∧ d ≤ listIndentOf b := by
        intro b hb
        rw [List.mem_reverse] at hb
        exact ha.2.2.1 b hb
      rw [findLowerIndentSibling_skip d (upcastNItem tag d it u).1.reverse
        pre hmem]
      exact hfind
    have hb := upcast_spec_items tag d parentTags rest
      (upcastNItem tag d it u).2
      ((upcastNItem tag d it u).1.reverse ++ pre) htag hd HExt2
    simp only [specNItems, upcastNItems]
    exact UpcastSpecOK_append u pre d _ _ _ _ ha hb
end

/-- Under the schema that accepts every block the upcast converter rewrites
the whole range. -/
theorem upcastConvert_const_true (tag : String) (d : Nat) (fid : AttrValue)
    (x0 : Block) (r0 : List Block) :
    ∃ k, listItemUpcastConvert (fun _ => true) tag d fid (x0 :: r0)
      = some (UpcastResult.mk
          ((x0 :: r0).map (upcastUpdate (fun _ => true) fid d
            (upcastListType tag (x0 :: r0)))) k) := by
  simp only [listItemUpcastConvert, filter_const_true]
  rw [if_neg (by simp)]
  exact ⟨_, rfl⟩

mutual
/-- Every block produced by the item upcast carries a list identifier and a
listIndent attribute. -/
theorem upcast_attrs_it (tag : String) (d : Nat) (it : NItem) :
    ∀ (u : Nat), ∀ b ∈ (upcastNItem tag d it u).1,
    isListItemBlock b = true ∧ (b.getAttr "listIndent").isSome = true := by
  intro u b hb
  cases it with
  | mk content sub =>
    obtain ⟨k, hk⟩ := upcastConvert_const_true tag d
      (.nat (upcastSub d sub u).2) { name := "paragraph", attrs := [] }
      (upcastSub d sub u).1
    have hred : upcastNItem tag d (.mk content sub) u
        = ((({ name := "paragraph", attrs := [] } : Block)
              :: (upcastSub d sub u).1).map
            (upcastUpdate (fun _ => true) (.nat (upcastSub d sub u).2) d
              (upcastListType tag
                (({ name := "paragraph", attrs := [] } : Block)
                  :: (upcastSub d sub u).1))),
          (upcastSub d sub u).2 + 1) := by
      simp only [upcastNItem]
      rw [hk]
    rw [hred] at hb
    simp only [List.map_cons, List.mem_cons] at hb
    rcases hb with rfl | hb
    · have hupd : upcastUpdate (fun _ => true) (.nat (upcastSub d sub u).2)
          d (upcastListType tag
            (({ name := "paragraph", attrs := [] } : Block)
              :: (upcastSub d sub u).1))
          { name := "paragraph", attrs := [] }
          = setListAttrs (.nat (upcastSub d sub u).2) d
            (upcastListType tag
              (({ name := "paragraph", attrs := [] } : Block)
                :: (upcastSub d sub u).1))
            { name := "paragraph", attrs := [] } := by
        unfold upcastUpdate
        rw [if_pos ⟨rfl, rfl⟩]
      rw [hupd]
      constructor
      · unfold isListItemBlock Block.hasAttr
        rw [getAttr_setListAttrs_id]
        rfl
      · rw [getAttr_setListAttrs_indent]
        rfl
    · obtain ⟨x, hx, rfl⟩ := List.mem_map.mp hb
      have hP : isListItemBlock x = true
          ∧ (x.getAttr "listIndent").isSome = true := by
        cases sub with
        | none => simp [upcastSub] at hx
        | some l => exact upcast_attrs_l (d + 1) l u x hx
      have hfix : upcastUpdate (fun _ => true) (.nat (upcastSub d sub u).2)
          d (upcastListType tag
            (({ name := "paragraph", attrs := [] } : Block)
              :: (upcastSub d sub u).1)) x = x := by
        unfold upcastUpdate
        rw [if_neg]
        rintro ⟨_, h2⟩
        have h1 : x.hasAttr "listItemId" = true := hP.1
        rw [h1] at h2
        exact Bool.noConfusion h2
      rw [hfix]
      exact hP

/-- Every block produced by the nested-list upcast carries both list
attributes. -/
theorem upcast_attrs_l (d : Nat) (l : NList) :
    ∀ (u : Nat), ∀ b ∈ (upcastNList d l u).1,
    isListItemBlock b = true ∧ (b.getAttr "listIndent").isSome = true := by
  intro u b hb
  cases l with
  | mk ordered items => exact upcast_attrs_items (listTag ordered) d items u b hb

/-- Every block produced by the item-sequence upcast carries both list
attributes. -/
theorem upcast_attrs_items (tag : String) (d : Nat) (items : List NItem) :
    ∀ (u : Nat), ∀ b ∈ (upcastNItems tag d items u).1,
    isListItemBlock b = true ∧ (b.getAttr "listIndent").isSome = true := by
  intro u b hb
  cases items with
  | nil => simp [upcastNItems] at hb
  | cons it rest =>
    simp only [upcastNItems] at hb
    rcases List.mem_append.mp hb with h | h
    · exact upcast_attrs_it tag d it u b h
    · exact upcast_attrs_items tag d rest (upcastNItem tag d it u).2 b h
end

/-- The wrapper-chain names of the downcast equal the governing-chain names
for any block that carries a listIndent attribute. -/
theorem wrap_names_eq_govNames (strategies : List DowncastStrategy)
    (rev : List Block) (b : Block)
    (hind : (b.getAttr "listIndent").isSome = true) :
    (wrapListItemBlock strategies rev b).map (fun w => w.listName)
      = govNames (listIndentOf b) b rev := by
  obtain ⟨v, hv⟩ := Option.isSome_iff_exists.mp hind
  unfold wrapListItemBlock
  rw [if_neg (by simp [hv])]
  rw [wrapChainGo_eq_govSteps]
  unfold govNames
  rw [List.map_map]
  rfl

/-- C6: For every nested list markup of the supported shape, upcasting it to
the flat attribute encoding and then downcasting each block to the external
data view reproduces an equivalent nested structure: the upcast produces one
block per markup item in document order, each block's listIndent equals the
item's nesting depth, blocks of distinct items carry distinct identifiers
(the same grouping of blocks into items), and the downcast wrapper chain of
every block carries one list wrapper per nesting level whose element names
are exactly the markup's list tags from the block's own level to the root
(the same list type at every level). -/
theorem c6_round_trip (nl : NList) (strategies : List DowncastStrategy) :
    (upcastNList 0 nl 0).1.length = (specNList 0 [] nl).length ∧
    ((upcastNList 0 nl 0).1.map (fun b => b.getAttr "listItemId")).Nodup ∧
    (∀ b ∈ (upcastNList 0 nl 0).1, isListItemBlock b = true) ∧
    (∀ i, i < (upcastNList 0 nl 0).1.length →
      listIndentOf ((upcastNList 0 nl 0).1.getD i default)
        = ((specNList 0 [] nl).getD i default).depth ∧
      (wrapListItemBlock strategies
          (((upcastNList 0 nl 0).1.take i).reverse)
          ((upcastNList 0 nl 0).1.getD i default)).map
        (fun w => w.listName)
        = ((specNList 0 [] nl).getD i default).path) := by
  have hspec := upcast_spec_l 0 [] nl 0 [] rfl
    (fun h => absurd h (lt_irrefl 0))
  obtain ⟨_, hl, hm, _, hn, hx⟩ := hspec
  refine ⟨hl, hn, fun b hb => (hm b hb).1, ?_⟩
  intro i hi
  obtain ⟨hdep, hpath⟩ := hx i hi
  refine ⟨hdep, ?_⟩
  have hmem : (upcastNList 0 nl 0).1.getD i default
      ∈ (upcastNList 0 nl 0).1 := by
    have hg : (upcastNList 0 nl 0).1.getD i default
        = (upcastNList 0 nl 0).1[i] := by
      rw [List.getD_eq_getElem?_getD, List.getElem?_eq_getElem hi]
      rfl
    rw [hg]
    exact List.getElem_mem hi
  have hind := (upcast_attrs_l 0 nl 0 _ hmem).2
  rw [wrap_names_eq_govNames strategies _ _ hind]
  rw [List.append_nil] at hpath
  exact hpath
